import Mathlib

/-!
Verification of the pptx-to-markdown batch converter (`pptx_to_markdown.py`).

The program is pure orchestration over the filesystem and two external
processes (the zip extractor and the `markitdown` converter).  We embed it
shallowly:

* the filesystem is an association list from paths (lists of components) to
  entries (regular files with content and encoding, or directories); the
  first binding for a path is the current one, and writes shadow;
* the zip archive's behaviour is a `ZipOutcome`: it either opens and
  extracts fully, fails to open (corrupt/unreadable archive), or fails
  midway after extracting a prefix of its members;
* the `markitdown` subprocess is a `ConvResult` (exit code, captured
  stdout/stderr); the `date` subprocess's stdout is a plain string
  parameter.

`extract_images_from_pptx` and `convert_pptx_to_markdown` are then direct
translations of the Python functions, threading the filesystem state
explicitly.
-/

namespace PptxToMarkdown

/-- A filesystem path, as a list of components. -/
abbrev Path := List String

/-- A filesystem entry: a regular file (text content plus the encoding it
was written with, when one was specified), or a directory. -/
inductive Entry where
  | file (content : String) (encoding : Option String)
  | dir
deriving DecidableEq

/-- A snapshot of the filesystem: an association list from paths to
entries.  The first binding for a path is the current one. -/
structure FS where
  entries : List (Path × Entry)
deriving DecidableEq

/-- First-match association-list lookup. -/
def lookupList : List (Path × Entry) → Path → Option Entry
  | [], _ => none
  | e :: l, p => if e.1 = p then some e.2 else lookupList l p

/-- The current entry at a path, if any. -/
def FS.lookup (fs : FS) (p : Path) : Option Entry := lookupList fs.entries p

/-- Path existence test (`Path.exists`). -/
def FS.exists (fs : FS) (p : Path) : Bool := (fs.lookup p).isSome

/-- Write an entry at a path, shadowing any previous binding (overwrite
semantics of `open(..., "w")` and `shutil.copy2`). -/
def FS.set (fs : FS) (p : Path) (v : Entry) : FS := ⟨(p, v) :: fs.entries⟩

/-- `os.makedirs` on one directory / `Path.mkdir(exist_ok=True)`, success
cases only: create the directory when the path is free, no-op when it is
occupied.  The raising case — a regular file occupying the path — is
modelled by `FS.mkdirExn` below; inside `extract_images_from_pptx` such a
raise is part of the `ZipOutcome.extractFail` outcome, since `extractall`
runs inside the `try`. -/
def FS.mkdirP (fs : FS) (p : Path) : FS := if fs.exists p then fs else fs.set p .dir

/-- `shutil.rmtree(path, ignore_errors=True)`: when the path is a directory,
remove it and everything below it; otherwise (missing path, or a
non-directory at the path) the error is ignored and nothing is removed. -/
def FS.rmtree (fs : FS) (p : Path) : FS :=
  match fs.lookup p with
  | some Entry.dir => ⟨fs.entries.filter (fun e => decide (¬ e.1.take p.length = p))⟩
  | _ => fs

/-- `shutil.copy2 src dst`, success case only: copy the regular file at
`src` over `dst`.  When `src` is not a regular file the real call raises
`IsADirectoryError` instead of continuing; that error path is modelled by
`FS.copy2Exn` below, and `convert_pptx_to_markdown_run` tracks where such a
raise escapes the program. -/
def FS.copy2 (fs : FS) (src dst : Path) : FS :=
  match fs.lookup src with
  | some (Entry.file c enc) => fs.set dst (Entry.file c enc)
  | _ => fs

/-- One member of a zip archive: its internal path and content. -/
structure ZipEntry where
  path : Path
  content : String
deriving DecidableEq

/-- The behaviour of `zipfile.ZipFile(pptx_path).extractall(temp_extract)`
on a given input file: the archive opens and extracts fully; opening raises
(corrupt or unreadable file); or extraction raises after a prefix of the
members has already been written to disk. -/
inductive ZipOutcome where
  | ok (entries : List ZipEntry)
  | openFail
  | extractFail (done : List ZipEntry)
deriving DecidableEq

/-- `zipfile` creates the missing ancestor directories of a member's target
path before writing the member. -/
def FS.mkAncestors (fs : FS) (full : Path) : FS :=
  ((List.range full.length).drop 1).foldl (fun acc k => acc.mkdirP (full.take k)) fs

/-- Extract one zip member below `target`. -/
def FS.extractMember (fs : FS) (target : Path) (e : ZipEntry) : FS :=
  (fs.mkAncestors (target ++ e.path)).set (target ++ e.path) (Entry.file e.content none)

/-- `ZipFile.extractall target`: extract the given members in order. -/
def FS.extractAll (fs : FS) (target : Path) (es : List ZipEntry) : FS :=
  es.foldl (fun acc e => acc.extractMember target e) fs

/-- Index of the last `'.'` in a list of characters, if any. -/
def lastDot (l : List Char) : Option Nat :=
  match l.reverse.findIdx? (fun c => decide (c = '.')) with
  | none => none
  | some j => some (l.length - 1 - j)

/-- `pathlib.PurePath.suffix`: the extension of the final component, from
its last dot; empty when the dot is absent, leading, or trailing. -/
def pathSuffix (name : String) : String :=
  match lastDot name.data with
  | none => ""
  | some i => if 0 < i ∧ i < name.data.length - 1 then ⟨name.data.drop i⟩ else ""

/-- `pathlib.PurePath.stem`: the final component without its suffix. -/
def pathStem (name : String) : String :=
  ⟨name.data.take (name.data.length - (pathSuffix name).data.length)⟩

/-- `str.lower`, character by character. -/
def strLower (s : String) : String := ⟨s.data.map Char.toLower⟩

/-- The fixed allow-list of image extensions. -/
def imageExts : List String := [".png", ".jpg", ".jpeg", ".gif"]

/-- The filter `img_file.suffix.lower() in ['.png', '.jpg', '.jpeg', '.gif']`. -/
def isImageName (name : String) : Bool := imageExts.contains (strLower (pathSuffix name))

/-- `pathlib.Path.name`: the final component of a (non-empty) path. -/
def pathName (p : Path) : String := p.getLastD ""

/-- Code-point lexicographic strict comparison of character lists (Python
string `<`). -/
def lexLt : List Char → List Char → Bool
  | _, [] => false
  | [], _ :: _ => true
  | a :: as, b :: bs => if a = b then lexLt as bs else decide (a.toNat < b.toNat)

/-- Python string comparison `a <= b`, by code points. -/
def strLe (a b : String) : Bool := ! lexLt b.data a.data

/-- The ordering relation used by `sorted`. -/
def nameLe (a b : String) : Prop := strLe a b = true

instance : DecidableRel nameLe := fun a b => inferInstanceAs (Decidable (strLe a b = true))

/-- The single component `q` extends `p` by, when `q` is an immediate child
of `p`. -/
def childName (p q : Path) : Option String :=
  if q.take p.length = p then
    match q.drop p.length with
    | [n] => some n
    | _ => none
  else none

/-- The names of the immediate children of `p` (`Path.iterdir`). -/
def FS.childNames (fs : FS) (p : Path) : List String :=
  (fs.entries.filterMap (fun e => childName p e.1)).dedup

/-- `sorted(media_dir.iterdir())`: the children of the directory in
code-point lexicographic order. -/
def FS.sortedChildren (fs : FS) (p : Path) : List String :=
  List.insertionSort nameLe (fs.childNames p)

/-- The result of `extract_images_from_pptx`: the filesystem afterwards,
the returned image list, the returned temporary-directory reference, and
whether the warning branch ran. -/
structure ExtractResult where
  fs : FS
  images : List Path
  temp_extract : Option Path
  warned : Bool
deriving DecidableEq

/-- `extract_images_from_pptx(pptx_path, output_dir)`: unzip the input into
`output_dir / "temp_extract"`, then collect the entries of
`temp_extract / "ppt" / "media"` whose suffix is on the allow-list, in
sorted order.  Any exception (opening the archive, extracting it, or
iterating a non-directory `media` path) is caught: a warning is printed and
`([], None)` is returned. -/
def extract_images_from_pptx (zip : ZipOutcome) (output_dir : Path) (fs : FS) : ExtractResult :=
  let temp := output_dir ++ ["temp_extract"]
  match zip with
  | ZipOutcome.openFail => ⟨fs, [], none, true⟩
  | ZipOutcome.extractFail done => ⟨FS.extractAll fs temp done, [], none, true⟩
  | ZipOutcome.ok entries =>
    let fs1 := FS.extractAll fs temp entries
    let media := temp ++ ["ppt", "media"]
    match fs1.lookup media with
    | none => ⟨fs1, [], some temp, false⟩
    | some Entry.dir =>
      ⟨fs1, ((fs1.sortedChildren media).filter isImageName).map (fun n => media ++ [n]),
        some temp, false⟩
    | some (Entry.file _ _) => ⟨fs1, [], none, true⟩

/-- The result of the `markitdown` subprocess: exit code and captured
output streams. -/
structure ConvResult where
  returncode : Nat
  stdout : String
  stderr : String
deriving DecidableEq

/-- `str.strip`: drop leading and trailing whitespace. -/
def pyStrip (s : String) : String :=
  ⟨((s.data.dropWhile Char.isWhitespace).reverse.dropWhile Char.isWhitespace).reverse⟩

/-- The metadata header: title line from the input's stem, the source file
name, the stripped output of the `date` subprocess, and a separator. -/
def header_for (stem name date_stdout : String) : String :=
  "# " ++ stem ++ "\n\n**Source File:** " ++ name ++ "  \n**Converted:** " ++
    pyStrip date_stdout ++ "\n\n---\n\n"

/-- The image-copying step of `convert_pptx_to_markdown`: when the flag is
set and images were found, make `output_dir / (stem + "_images")` and copy
each image into it under its own file name. -/
def copy_images (stem : String) (output_dir : Path) (keep_images : Bool)
    (ex : ExtractResult) : FS :=
  if ex.images ≠ [] ∧ keep_images = true then
    let img_dir := output_dir ++ [stem ++ "_images"]
    ex.images.foldl (fun acc img => acc.copy2 img (img_dir ++ [pathName img]))
      (ex.fs.mkdirP img_dir)
  else ex.fs

/-- The result of `convert_pptx_to_markdown`: the filesystem afterwards and
the returned success flag. -/
structure ConvertResult where
  fs : FS
  success : Bool
deriving DecidableEq

/-- The conversion step: run `markitdown`; on exit code 0 write the header
plus captured stdout to the output document (UTF-8, overwriting); on a
non-zero exit code the `CalledProcessError` branch returns `False` without
writing. -/
def run_markitdown (conv : ConvResult) (stem name date_stdout : String) (md_path : Path)
    (fs : FS) : ConvertResult :=
  if conv.returncode = 0 then
    ⟨fs.set md_path (Entry.file (header_for stem name date_stdout ++ conv.stdout) (some "utf-8")),
      true⟩
  else ⟨fs, false⟩

/-- The `finally` block: if a temporary-directory reference was returned
and the path exists, remove its tree, ignoring errors. -/
def cleanup_temp (t? : Option Path) (fs : FS) : FS :=
  match t? with
  | some t => if fs.exists t then fs.rmtree t else fs
  | none => fs

/-- `convert_pptx_to_markdown(pptx_path, output_dir, keep_images)`:
extract the images, optionally copy them to the output side, run the
converter and write the output document on success, then clean up the
temporary directory.  This is the state-only model: it gives the returned
value on the runs where the image-copy step raises no exception;
`convert_pptx_to_markdown_run` below is the control-flow-faithful model
that also covers the uncaught-exception path, and agrees with this one
whenever it returns. -/
def convert_pptx_to_markdown (name : String) (zip : ZipOutcome) (conv : ConvResult)
    (date_stdout : String) (output_dir : Path) (keep_images : Bool) (fs : FS) : ConvertResult :=
  let stem := pathStem name
  let ex := extract_images_from_pptx zip output_dir fs
  let fs1 := copy_images stem output_dir keep_images ex
  let step := run_markitdown conv stem name date_stdout (output_dir ++ [stem ++ ".md"]) fs1
  ⟨cleanup_temp ex.temp_extract step.fs, step.success⟩

/-- `shutil.copy2 src dst` with its error path: the copy succeeds only when
`src` is a regular file; otherwise the call raises — `IsADirectoryError`
for a directory, `FileNotFoundError` for a missing path — leaving the
filesystem unchanged.  The `Except.error` value carries that unchanged
state. -/
def FS.copy2Exn (fs : FS) (src dst : Path) : Except FS FS :=
  match fs.lookup src with
  | some (Entry.file c enc) => Except.ok (fs.set dst (Entry.file c enc))
  | _ => Except.error fs

/-- `Path.mkdir(exist_ok=True)` with its error path: an existing directory
is accepted, a free path is created, but a regular file occupying the path
raises `FileExistsError`, leaving the filesystem unchanged. -/
def FS.mkdirExn (fs : FS) (p : Path) : Except FS FS :=
  match fs.lookup p with
  | some (Entry.file _ _) => Except.error fs
  | some Entry.dir => Except.ok fs
  | none => Except.ok (fs.set p Entry.dir)

/-- The copy loop of `convert_pptx_to_markdown` (`for img in images:
shutil.copy2(img, dest)`), stopping at the first raising copy; the error
value is the on-disk state at the raise. -/
def copyLoopExn : List Path → Path → FS → Except FS FS
  | [], _, F => Except.ok F
  | img :: rest, img_dir, F =>
    match F.copy2Exn img (img_dir ++ [pathName img]) with
    | Except.error F2 => Except.error F2
    | Except.ok F2 => copyLoopExn rest img_dir F2

/-- The image-copying step with its exception paths: `mkdir(exist_ok=True)`
and each `shutil.copy2` can raise, and nothing in
`convert_pptx_to_markdown` catches them. -/
def copy_images_exn (stem : String) (output_dir : Path) (keep_images : Bool)
    (ex : ExtractResult) : Except FS FS :=
  if ex.images ≠ [] ∧ keep_images = true then
    match ex.fs.mkdirExn (output_dir ++ [stem ++ "_images"]) with
    | Except.error F => Except.error F
    | Except.ok F0 => copyLoopExn ex.images (output_dir ++ [stem ++ "_images"]) F0
  else Except.ok ex.fs

/-- `convert_pptx_to_markdown` with its uncaught-exception path.  The image
copies (source lines 53-63) run before the `try`/`finally` that begins at
line 66, so an exception raised while making the folder or copying an
asset propagates to the caller: no output document is written, no success
value is returned, and the temp directory is not cleaned up.
`Except.error` carries the on-disk state at the raise; when the copy step
does not raise, the function returns exactly the `ConvertResult` of the
state-only model above. -/
def convert_pptx_to_markdown_run (name : String) (zip : ZipOutcome) (conv : ConvResult)
    (date_stdout : String) (output_dir : Path) (keep_images : Bool) (fs : FS) :
    Except FS ConvertResult :=
  let stem := pathStem name
  let ex := extract_images_from_pptx zip output_dir fs
  match copy_images_exn stem output_dir keep_images ex with
  | Except.error F => Except.error F
  | Except.ok fs1 =>
    let step := run_markitdown conv stem name date_stdout (output_dir ++ [stem ++ ".md"]) fs1
    Except.ok ⟨cleanup_temp ex.temp_extract step.fs, step.success⟩

end PptxToMarkdown

namespace PptxToMarkdown

/-! ### Association-list and filesystem-operation lemmas -/

theorem lookupList_filter (P : Path → Bool) (l : List (Path × Entry)) (q : Path) :
    lookupList (l.filter (fun e => P e.1)) q = if P q then lookupList l q else none := by
  induction l with
  | nil => simp [lookupList]
  | cons e l ih =>
    by_cases hP : P e.1
    · by_cases hq : e.1 = q
      · subst hq
        simp [lookupList, hP]
      · simp only [List.filter_cons, hP, if_true, lookupList, hq, if_false, ih]
    · by_cases hq : e.1 = q
      · subst hq
        simp only [List.filter_cons, hP]
        simp only [Bool.false_eq_true, if_false, ih, lookupList, if_pos rfl]
        simp [hP]
      · simp only [List.filter_cons, hP, Bool.false_eq_true, if_false, ih, lookupList, hq]

theorem lookup_set_self (fs : FS) (p : Path) (v : Entry) : (fs.set p v).lookup p = some v := by
  simp [FS.set, FS.lookup, lookupList]

theorem lookup_set_ne (fs : FS) (p : Path) (v : Entry) (q : Path) (h : q ≠ p) :
    (fs.set p v).lookup q = fs.lookup q := by
  have hpq : ¬ p = q := fun hh => h (Eq.symm hh)
  simp [FS.set, FS.lookup, lookupList, hpq]

theorem lookup_mkdirP_ne (fs : FS) (p q : Path) (h : q ≠ p) :
    (fs.mkdirP p).lookup q = fs.lookup q := by
  unfold FS.mkdirP
  by_cases he : fs.exists p = true
  · simp [he]
  · simp only [he, Bool.false_eq_true, if_false]
    exact lookup_set_ne fs p Entry.dir q h

theorem lookup_mkdirP_some (fs : FS) (p q : Path) (v : Entry) (h : fs.lookup q = some v) :
    (fs.mkdirP p).lookup q = some v := by
  by_cases hq : q = p
  · subst hq
    unfold FS.mkdirP FS.exists
    simp [h]
  · rw [lookup_mkdirP_ne fs p q hq]
    exact h

theorem lookup_mkdirP_cases (fs : FS) (p q : Path) :
    (fs.mkdirP p).lookup q = fs.lookup q ∨ (fs.mkdirP p).lookup q = some Entry.dir := by
  by_cases hq : q = p
  · subst hq
    unfold FS.mkdirP
    by_cases he : fs.exists q = true
    · simp [he]
    · simp only [he, Bool.false_eq_true, if_false]
      exact Or.inr (lookup_set_self fs q Entry.dir)
  · exact Or.inl (lookup_mkdirP_ne fs p q hq)

theorem exists_mkdirP_self (fs : FS) (p : Path) : (fs.mkdirP p).exists p = true := by
  unfold FS.mkdirP
  by_cases he : fs.exists p = true
  · simp [he]
  · rw [if_neg he]
    show ((fs.set p Entry.dir).lookup p).isSome = true
    rw [lookup_set_self]
    rfl

theorem lookup_rmtree_not_under (fs : FS) (p q : Path) (h : ¬ q.take p.length = p) :
    (fs.rmtree p).lookup q = fs.lookup q := by
  unfold FS.rmtree
  cases hl : fs.lookup p with
  | none => rfl
  | some v =>
    cases v with
    | file c enc => rfl
    | dir =>
      show FS.lookup ⟨fs.entries.filter (fun e => decide (¬ e.1.take p.length = p))⟩ q = _
      unfold FS.lookup
      rw [lookupList_filter (fun r => decide (¬ r.take p.length = p)) fs.entries q]
      simp [h]

theorem lookup_rmtree_removed (fs : FS) (p : Path) (h : fs.lookup p = some Entry.dir) :
    (fs.rmtree p).lookup p = none := by
  unfold FS.rmtree
  rw [h]
  show FS.lookup ⟨fs.entries.filter (fun e => decide (¬ e.1.take p.length = p))⟩ p = _
  unfold FS.lookup
  rw [lookupList_filter (fun r => decide (¬ r.take p.length = p)) fs.entries p]
  simp [List.take_length]


/-! ### String and path shape lemmas -/

theorem data_append (s t : String) : (s ++ t).data = s.data ++ t.data := rfl

theorem append_md_ne_temp (s : String) : s ++ ".md" ≠ "temp_extract" := by
  intro h
  have hd : (s ++ ".md").data = "temp_extract".data := congrArg String.data h
  rw [data_append] at hd
  have h2 := congrArg List.getLast? hd
  rw [show (".md".data : List Char) = ['.', 'm'] ++ ['d'] from rfl, ← List.append_assoc,
    List.getLast?_concat] at h2
  exact absurd h2 (by decide)

theorem append_images_ne_temp (s : String) : s ++ "_images" ≠ "temp_extract" := by
  intro h
  have hd : (s ++ "_images").data = "temp_extract".data := congrArg String.data h
  rw [data_append] at hd
  have h2 := congrArg List.getLast? hd
  rw [show ("_images".data : List Char) = ['_', 'i', 'm', 'a', 'g', 'e'] ++ ['s'] from rfl,
    ← List.append_assoc, List.getLast?_concat] at h2
  exact absurd h2 (by decide)

theorem append_images_ne_append_md (s : String) : s ++ "_images" ≠ s ++ ".md" := by
  intro h
  have hd := congrArg String.data h
  rw [data_append, data_append] at hd
  exact absurd (List.append_cancel_left hd) (by decide)

theorem append_cons_inj (out : Path) (a b : String) (l r : Path)
    (h : out ++ a :: l = out ++ b :: r) : a = b := by
  have h2 := List.append_cancel_left h
  exact (List.cons.injEq a l b r ▸ h2).1

theorem append_cons_ne (out : Path) (a b : String) (l r : Path) (h : a ≠ b) :
    out ++ a :: l ≠ out ++ b :: r :=
  fun hh => h (append_cons_inj out a b l r hh)

theorem ne_take_shape (out : Path) (s a : String) (l r : Path) (h : s ≠ a) (k : Nat) :
    out ++ s :: l ≠ (out ++ a :: r).take k := by
  intro hh
  rcases le_or_lt k out.length with hk | hk
  · have hlen := congrArg List.length hh
    rw [List.length_append, List.length_cons, List.length_take, List.length_append,
      List.length_cons] at hlen
    omega
  · rw [List.take_append_eq_append_take, List.take_of_length_le (Nat.le_of_lt hk)] at hh
    obtain ⟨m, hm⟩ : ∃ m, k - out.length = m + 1 := ⟨k - out.length - 1, by omega⟩
    rw [hm, List.take_succ_cons] at hh
    exact h (append_cons_inj out s a l (r.take m) hh)

theorem take_len_plus_one (out : Path) (s : String) (l : Path) :
    (out ++ s :: l).take (out.length + 1) = out ++ [s] := by
  rw [List.take_append_eq_append_take, List.take_of_length_le (Nat.le_succ out.length)]
  simp

theorem append_cons_ne_of_length (out : Path) (a : String) (l : Path) (b : String) (r : Path)
    (h : l.length ≠ r.length) : out ++ a :: l ≠ out ++ b :: r := by
  intro hh
  have hlen := congrArg List.length hh
  rw [List.length_append, List.length_cons, List.length_append, List.length_cons] at hlen
  omega


/-! ### Preservation lemmas for extraction and copying -/

theorem lookup_foldl_mkdirP_ne (full q : Path) (ks : List Nat) (fs : FS)
    (h : ∀ k ∈ ks, q ≠ full.take k) :
    (ks.foldl (fun acc k => acc.mkdirP (full.take k)) fs).lookup q = fs.lookup q := by
  revert h
  induction ks generalizing fs with
  | nil => intro h; rfl
  | cons k ks ih =>
    intro h
    rw [List.foldl_cons,
      ih (fs.mkdirP (full.take k)) (fun j hj => h j (List.mem_cons_of_mem k hj))]
    exact lookup_mkdirP_ne fs (full.take k) q (h k (List.mem_cons_self k ks))

theorem lookup_foldl_mkdirP_some (full q : Path) (ks : List Nat) (fs : FS) (v : Entry)
    (hq : fs.lookup q = some v) :
    (ks.foldl (fun acc k => acc.mkdirP (full.take k)) fs).lookup q = some v := by
  revert hq
  induction ks generalizing fs with
  | nil => intro hq; exact hq
  | cons k ks ih =>
    intro hq
    rw [List.foldl_cons]
    exact ih (fs.mkdirP (full.take k)) (lookup_mkdirP_some fs (full.take k) q v hq)

theorem lookup_foldl_mkdirP_cases (full q : Path) (ks : List Nat) (fs : FS) :
    (ks.foldl (fun acc k => acc.mkdirP (full.take k)) fs).lookup q = fs.lookup q ∨
      (ks.foldl (fun acc k => acc.mkdirP (full.take k)) fs).lookup q = some Entry.dir := by
  induction ks generalizing fs with
  | nil => exact Or.inl rfl
  | cons k ks ih =>
    rw [List.foldl_cons]
    rcases ih (fs.mkdirP (full.take k)) with h | h
    · rw [h]
      exact lookup_mkdirP_cases fs (full.take k) q
    · exact Or.inr h

theorem lookup_mkAncestors_ne (fs : FS) (full q : Path) (h : ∀ k, q ≠ full.take k) :
    (fs.mkAncestors full).lookup q = fs.lookup q :=
  lookup_foldl_mkdirP_ne full q _ fs (fun k _ => h k)

theorem lookup_extractMember_ne (fs : FS) (target : Path) (e : ZipEntry) (q : Path)
    (h : ∀ k, q ≠ (target ++ e.path).take k) :
    (fs.extractMember target e).lookup q = fs.lookup q := by
  have hfull : q ≠ target ++ e.path := by
    have h2 := h (target ++ e.path).length
    rwa [List.take_length] at h2
  unfold FS.extractMember
  rw [lookup_set_ne _ _ _ _ hfull]
  exact lookup_mkAncestors_ne fs _ q h

theorem lookup_extractAll_ne (fs : FS) (target : Path) (es : List ZipEntry) (q : Path)
    (h : ∀ e ∈ es, ∀ k, q ≠ (target ++ e.path).take k) :
    (FS.extractAll fs target es).lookup q = fs.lookup q := by
  revert h
  induction es generalizing fs with
  | nil => intro h; rfl
  | cons e es ih =>
    intro h
    show (FS.extractAll (fs.extractMember target e) target es).lookup q = _
    rw [ih (fs.extractMember target e) (fun j hj => h j (List.mem_cons_of_mem e hj))]
    exact lookup_extractMember_ne fs target e q (h e (List.mem_cons_self e es))

theorem lookup_extractMember_some (fs : FS) (target : Path) (e : ZipEntry) (q : Path)
    (v : Entry) (hq : fs.lookup q = some v) (h : q ≠ target ++ e.path) :
    (fs.extractMember target e).lookup q = some v := by
  unfold FS.extractMember
  rw [lookup_set_ne _ _ _ _ h]
  exact lookup_foldl_mkdirP_some _ q _ fs v hq

theorem lookup_extractAll_some (fs : FS) (target : Path) (es : List ZipEntry) (q : Path)
    (v : Entry) (hq : fs.lookup q = some v) (h : ∀ e ∈ es, q ≠ target ++ e.path) :
    (FS.extractAll fs target es).lookup q = some v := by
  revert hq h
  induction es generalizing fs with
  | nil => intro hq _; exact hq
  | cons e es ih =>
    intro hq h
    show (FS.extractAll (fs.extractMember target e) target es).lookup q = _
    exact ih (fs.extractMember target e)
      (lookup_extractMember_some fs target e q v hq (h e (List.mem_cons_self e es)))
      (fun j hj => h j (List.mem_cons_of_mem e hj))

theorem lookup_extractMember_not_file (fs : FS) (target : Path) (e : ZipEntry) (q : Path)
    (h1 : ∀ c enc, fs.lookup q ≠ some (Entry.file c enc)) (h : q ≠ target ++ e.path) :
    ∀ c enc, (fs.extractMember target e).lookup q ≠ some (Entry.file c enc) := by
  intro c enc
  unfold FS.extractMember
  rw [lookup_set_ne _ _ _ _ h]
  rcases lookup_foldl_mkdirP_cases (target ++ e.path) q _ fs with h2 | h2
  · rw [FS.mkAncestors, h2]
    exact h1 c enc
  · rw [FS.mkAncestors, h2]
    intro hcontra
    cases hcontra

theorem lookup_extractAll_not_file (fs : FS) (target : Path) (es : List ZipEntry) (q : Path)
    (h1 : ∀ c enc, fs.lookup q ≠ some (Entry.file c enc))
    (h2 : ∀ e ∈ es, q ≠ target ++ e.path) :
    ∀ c enc, (FS.extractAll fs target es).lookup q ≠ some (Entry.file c enc) := by
  revert h1 h2
  induction es generalizing fs with
  | nil => intro h1 _; exact h1
  | cons e es ih =>
    intro h1 h2
    show ∀ c enc, (FS.extractAll (fs.extractMember target e) target es).lookup q ≠ _
    exact ih (fs.extractMember target e)
      (lookup_extractMember_not_file fs target e q h1 (h2 e (List.mem_cons_self e es)))
      (fun j hj => h2 j (List.mem_cons_of_mem e hj))

theorem lookup_copy2_ne (F : FS) (src dst q : Path) (h : q ≠ dst) :
    (F.copy2 src dst).lookup q = F.lookup q := by
  unfold FS.copy2
  cases hs : F.lookup src with
  | none => rfl
  | some v =>
    cases v with
    | file c enc => exact lookup_set_ne F dst (Entry.file c enc) q h
    | dir => rfl

theorem lookup_copyFold_ne (imgs : List Path) (dst : Path → Path) (F : FS) (q : Path)
    (h : ∀ i ∈ imgs, q ≠ dst i) :
    (imgs.foldl (fun acc i => acc.copy2 i (dst i)) F).lookup q = F.lookup q := by
  revert h
  induction imgs generalizing F with
  | nil => intro h; rfl
  | cons i rest ih =>
    intro h
    rw [List.foldl_cons, ih (F.copy2 i (dst i)) (fun j hj => h j (List.mem_cons_of_mem i hj))]
    exact lookup_copy2_ne F i (dst i) q (h i (List.mem_cons_self i rest))

theorem lookup_copyFold_dst (imgs : List Path) (dst : Path → Path) :
    ∀ F : FS, (imgs.map dst).Nodup → (∀ i ∈ imgs, ∀ j ∈ imgs, i ≠ dst j) →
    ∀ img ∈ imgs, ∀ (c : String) (enc : Option String),
    F.lookup img = some (Entry.file c enc) →
    (imgs.foldl (fun acc i => acc.copy2 i (dst i)) F).lookup (dst img) =
      some (Entry.file c enc) := by
  induction imgs with
  | nil =>
    intro F _ _ img hmem
    cases hmem
  | cons i rest ih =>
    intro F hnd hsd img hmem c enc hfile
    rw [List.foldl_cons]
    by_cases hii : img = i
    · subst hii
      have hcopy : F.copy2 img (dst img) = F.set (dst img) (Entry.file c enc) := by
        unfold FS.copy2
        rw [hfile]
      rw [hcopy]
      have hnotin : ∀ j ∈ rest, dst img ≠ dst j := by
        intro j hj heq
        have hmapnd : ¬ dst img ∈ rest.map dst := by
          rw [List.map_cons] at hnd
          exact (List.nodup_cons.mp hnd).1
        exact hmapnd (heq ▸ List.mem_map_of_mem dst hj)
      rw [lookup_copyFold_ne rest dst _ (dst img) hnotin]
      exact lookup_set_self _ _ _
    · have hmem2 : img ∈ rest := by
        rcases List.mem_cons.mp hmem with h | h
        · exact absurd h hii
        · exact h
      have hne : img ≠ dst i := hsd img hmem i (List.mem_cons_self i rest)
      have hfile2 : (F.copy2 i (dst i)).lookup img = some (Entry.file c enc) := by
        rw [lookup_copy2_ne F i (dst i) img hne]
        exact hfile
      have hnd2 : (rest.map dst).Nodup := by
        rw [List.map_cons] at hnd
        exact (List.nodup_cons.mp hnd).2
      exact ih (F.copy2 i (dst i)) hnd2
        (fun a ha b hb => hsd a (List.mem_cons_of_mem i ha) b (List.mem_cons_of_mem i hb))
        img hmem2 c enc hfile2


/-! ### Computation lemmas for the extractor -/

theorem extract_openFail_eq (out : Path) (fs : FS) :
    extract_images_from_pptx ZipOutcome.openFail out fs = ⟨fs, [], none, true⟩ := rfl

theorem extract_extractFail_eq (done : List ZipEntry) (out : Path) (fs : FS) :
    extract_images_from_pptx (ZipOutcome.extractFail done) out fs =
      ⟨FS.extractAll fs (out ++ ["temp_extract"]) done, [], none, true⟩ := rfl

theorem extract_ok_eq (entries : List ZipEntry) (out : Path) (fs : FS) :
    extract_images_from_pptx (ZipOutcome.ok entries) out fs =
      match (FS.extractAll fs (out ++ ["temp_extract"]) entries).lookup
          ((out ++ ["temp_extract"]) ++ ["ppt", "media"]) with
      | none =>
        ⟨FS.extractAll fs (out ++ ["temp_extract"]) entries, [],
          some (out ++ ["temp_extract"]), false⟩
      | some Entry.dir =>
        ⟨FS.extractAll fs (out ++ ["temp_extract"]) entries,
          (((FS.extractAll fs (out ++ ["temp_extract"]) entries).sortedChildren
              ((out ++ ["temp_extract"]) ++ ["ppt", "media"])).filter isImageName).map
            (fun n => ((out ++ ["temp_extract"]) ++ ["ppt", "media"]) ++ [n]),
          some (out ++ ["temp_extract"]), false⟩
      | some (Entry.file _ _) =>
        ⟨FS.extractAll fs (out ++ ["temp_extract"]) entries, [], none, true⟩ := rfl

theorem extract_ok_media_none (entries : List ZipEntry) (out : Path) (fs : FS)
    (h : (FS.extractAll fs (out ++ ["temp_extract"]) entries).lookup
      ((out ++ ["temp_extract"]) ++ ["ppt", "media"]) = none) :
    extract_images_from_pptx (ZipOutcome.ok entries) out fs =
      ⟨FS.extractAll fs (out ++ ["temp_extract"]) entries, [],
        some (out ++ ["temp_extract"]), false⟩ := by
  rw [extract_ok_eq, h]

theorem extract_ok_media_dir (entries : List ZipEntry) (out : Path) (fs : FS)
    (h : (FS.extractAll fs (out ++ ["temp_extract"]) entries).lookup
      ((out ++ ["temp_extract"]) ++ ["ppt", "media"]) = some Entry.dir) :
    extract_images_from_pptx (ZipOutcome.ok entries) out fs =
      ⟨FS.extractAll fs (out ++ ["temp_extract"]) entries,
        (((FS.extractAll fs (out ++ ["temp_extract"]) entries).sortedChildren
            ((out ++ ["temp_extract"]) ++ ["ppt", "media"])).filter isImageName).map
          (fun n => ((out ++ ["temp_extract"]) ++ ["ppt", "media"]) ++ [n]),
        some (out ++ ["temp_extract"]), false⟩ := by
  rw [extract_ok_eq, h]

theorem extract_ok_media_file (entries : List ZipEntry) (out : Path) (fs : FS)
    (c : String) (enc : Option String)
    (h : (FS.extractAll fs (out ++ ["temp_extract"]) entries).lookup
      ((out ++ ["temp_extract"]) ++ ["ppt", "media"]) = some (Entry.file c enc)) :
    extract_images_from_pptx (ZipOutcome.ok entries) out fs =
      ⟨FS.extractAll fs (out ++ ["temp_extract"]) entries, [], none, true⟩ := by
  rw [extract_ok_eq, h]

theorem temp_ref_shape (zip : ZipOutcome) (out : Path) (fs : FS) :
    (extract_images_from_pptx zip out fs).temp_extract = none ∨
      (extract_images_from_pptx zip out fs).temp_extract = some (out ++ ["temp_extract"]) := by
  cases zip with
  | openFail => exact Or.inl rfl
  | extractFail done => exact Or.inl rfl
  | ok entries =>
    cases hm : (FS.extractAll fs (out ++ ["temp_extract"]) entries).lookup
        ((out ++ ["temp_extract"]) ++ ["ppt", "media"]) with
    | none => rw [extract_ok_media_none entries out fs hm]; exact Or.inr rfl
    | some v =>
      cases v with
      | dir => rw [extract_ok_media_dir entries out fs hm]; exact Or.inr rfl
      | file c enc => rw [extract_ok_media_file entries out fs c enc hm]; exact Or.inl rfl

theorem extract_fs_ok (entries : List ZipEntry) (out : Path) (fs : FS) :
    (extract_images_from_pptx (ZipOutcome.ok entries) out fs).fs =
      FS.extractAll fs (out ++ ["temp_extract"]) entries := by
  cases hm : (FS.extractAll fs (out ++ ["temp_extract"]) entries).lookup
      ((out ++ ["temp_extract"]) ++ ["ppt", "media"]) with
  | none => rw [extract_ok_media_none entries out fs hm]
  | some v =>
    cases v with
    | dir => rw [extract_ok_media_dir entries out fs hm]
    | file c enc => rw [extract_ok_media_file entries out fs c enc hm]

theorem lookup_extract_ne (zip : ZipOutcome) (out : Path) (fs : FS) (s : String) (l : Path)
    (hs : s ≠ "temp_extract") :
    (extract_images_from_pptx zip out fs).fs.lookup (out ++ s :: l) =
      fs.lookup (out ++ s :: l) := by
  have hpres : ∀ es : List ZipEntry,
      (FS.extractAll fs (out ++ ["temp_extract"]) es).lookup (out ++ s :: l) =
        fs.lookup (out ++ s :: l) := by
    intro es
    apply lookup_extractAll_ne
    intro e _ k
    have hshape : (out ++ ["temp_extract"]) ++ e.path = out ++ "temp_extract" :: e.path := by
      simp
    rw [hshape]
    exact ne_take_shape out s "temp_extract" l e.path hs k
  cases zip with
  | openFail => rfl
  | extractFail done => exact hpres done
  | ok entries => rw [extract_fs_ok]; exact hpres entries

theorem mem_images_shape (zip : ZipOutcome) (out : Path) (fs : FS) (p : Path)
    (h : p ∈ (extract_images_from_pptx zip out fs).images) :
    ∃ n : String, isImageName n = true ∧
      p = ((out ++ ["temp_extract"]) ++ ["ppt", "media"]) ++ [n] := by
  cases zip with
  | openFail => cases h
  | extractFail done => cases h
  | ok entries =>
    cases hm : (FS.extractAll fs (out ++ ["temp_extract"]) entries).lookup
        ((out ++ ["temp_extract"]) ++ ["ppt", "media"]) with
    | none => rw [extract_ok_media_none entries out fs hm] at h; cases h
    | some v =>
      cases v with
      | file c enc => rw [extract_ok_media_file entries out fs c enc hm] at h; cases h
      | dir =>
        rw [extract_ok_media_dir entries out fs hm] at h
        rcases List.mem_map.mp h with ⟨n, hn, hp⟩
        exact ⟨n, (List.mem_filter.mp hn).2, hp.symm⟩


/-! ### Name and ordering lemmas -/

theorem getLastD_append_singleton (l : List String) (n d : String) :
    (l ++ [n]).getLastD d = n := by
  simp

theorem pathName_concat (l : Path) (n : String) : pathName (l ++ [n]) = n :=
  getLastD_append_singleton l n ""

theorem map_pathName_map_append (media : Path) (names : List String) :
    ((names.map fun n => media ++ [n]).map pathName) = names := by
  rw [List.map_map]
  have h : ∀ n ∈ names, (pathName ∘ fun n => media ++ [n]) n = id n := by
    intro n _
    show pathName (media ++ [n]) = n
    exact pathName_concat media n
  rw [List.map_congr_left h, List.map_id]

theorem sortedChildren_nodup (fs : FS) (p : Path) : (fs.sortedChildren p).Nodup := by
  unfold FS.sortedChildren
  refine (List.perm_insertionSort nameLe (fs.childNames p)).symm.nodup ?_
  unfold FS.childNames
  exact List.nodup_dedup _

theorem images_names_nodup (zip : ZipOutcome) (out : Path) (fs : FS) :
    ((extract_images_from_pptx zip out fs).images.map pathName).Nodup := by
  cases zip with
  | openFail => exact List.nodup_nil
  | extractFail done => exact List.nodup_nil
  | ok entries =>
    cases hm : (FS.extractAll fs (out ++ ["temp_extract"]) entries).lookup
        ((out ++ ["temp_extract"]) ++ ["ppt", "media"]) with
    | none => rw [extract_ok_media_none entries out fs hm]; exact List.nodup_nil
    | some v =>
      cases v with
      | file c enc => rw [extract_ok_media_file entries out fs c enc hm]; exact List.nodup_nil
      | dir =>
        rw [extract_ok_media_dir entries out fs hm]
        show ((((FS.extractAll fs (out ++ ["temp_extract"]) entries).sortedChildren
            ((out ++ ["temp_extract"]) ++ ["ppt", "media"])).filter isImageName).map
            (fun n => ((out ++ ["temp_extract"]) ++ ["ppt", "media"]) ++ [n])).map pathName
            |>.Nodup
        rw [map_pathName_map_append]
        exact (sortedChildren_nodup _ _).filter isImageName

theorem lexLt_trans :
    ∀ x y z : List Char, lexLt x y = true → lexLt y z = true → lexLt x z = true := by
  intro x
  induction x with
  | nil =>
    intro y z h1 h2
    cases y with
    | nil => simp [lexLt] at h1
    | cons b bs =>
      cases z with
      | nil => simp [lexLt] at h2
      | cons c cs => rfl
  | cons a as ih =>
    intro y z h1 h2
    cases y with
    | nil => simp [lexLt] at h1
    | cons b bs =>
      cases z with
      | nil => simp [lexLt] at h2
      | cons c cs =>
        rw [lexLt] at h1 h2 ⊢
        by_cases hab : a = b
        · rw [if_pos hab] at h1
          by_cases hbc : b = c
          · rw [if_pos hbc] at h2
            rw [if_pos (hab.trans hbc)]
            exact ih bs cs h1 h2
          · rw [if_neg hbc] at h2
            have hb := congrArg Char.toNat hab
            simp only [decide_eq_true_eq] at h2
            have hac : ¬ a = c := by
              intro h
              have := congrArg Char.toNat h
              omega
            rw [if_neg hac]
            simp only [decide_eq_true_eq]
            omega
        · rw [if_neg hab] at h1
          simp only [decide_eq_true_eq] at h1
          by_cases hbc : b = c
          · have hb := congrArg Char.toNat hbc
            have hac : ¬ a = c := by
              intro h
              have := congrArg Char.toNat h
              omega
            rw [if_neg hac]
            simp only [decide_eq_true_eq]
            omega
          · rw [if_neg hbc] at h2
            simp only [decide_eq_true_eq] at h2
            have hac : ¬ a = c := by
              intro h
              have := congrArg Char.toNat h
              omega
            rw [if_neg hac]
            simp only [decide_eq_true_eq]
            omega

theorem lexLt_asymm : ∀ x y : List Char, lexLt x y = true → lexLt y x = false := by
  intro x
  induction x with
  | nil =>
    intro y h
    cases y with
    | nil => simp [lexLt] at h
    | cons b bs => rfl
  | cons a as ih =>
    intro y h
    cases y with
    | nil => simp [lexLt] at h
    | cons b bs =>
      rw [lexLt] at h ⊢
      by_cases hab : a = b
      · rw [if_pos hab] at h
        rw [if_pos hab.symm]
        exact ih bs h
      · rw [if_neg hab] at h
        simp only [decide_eq_true_eq] at h
        have hba : ¬ b = a := fun hh => hab hh.symm
        rw [if_neg hba]
        simp only [decide_eq_false_iff_not]
        omega

theorem charEq_of_toNat_eq (a b : Char) (h : a.toNat = b.toNat) : a = b :=
  Char.eq_of_val_eq (UInt32.eq_of_toBitVec_eq (BitVec.eq_of_toNat_eq h))

theorem lexLt_connex : ∀ x y : List Char, lexLt x y = false → lexLt y x = false → x = y := by
  intro x
  induction x with
  | nil =>
    intro y h1 h2
    cases y with
    | nil => rfl
    | cons b bs => simp [lexLt] at h1
  | cons a as ih =>
    intro y h1 h2
    cases y with
    | nil => simp [lexLt] at h2
    | cons b bs =>
      rw [lexLt] at h1 h2
      by_cases hab : a = b
      · rw [if_pos hab] at h1
        have hba : b = a := hab.symm
        rw [if_pos hba] at h2
        rw [hab, ih bs h1 h2]
      · rw [if_neg hab] at h1
        have hba : ¬ b = a := fun hh => hab hh.symm
        rw [if_neg hba] at h2
        simp only [decide_eq_false_iff_not] at h1 h2
        exact absurd (charEq_of_toNat_eq a b (by omega)) hab

instance : IsTotal String nameLe where
  total := by
    intro a b
    by_cases h : lexLt b.data a.data = true
    · right
      show (! lexLt a.data b.data) = true
      rw [lexLt_asymm b.data a.data h]
      rfl
    · left
      show (! lexLt b.data a.data) = true
      simp only [Bool.not_eq_true] at h
      rw [h]
      rfl

instance : IsTrans String nameLe where
  trans := by
    intro a b c hab hbc
    have hab2 : lexLt b.data a.data = false := by
      simpa [nameLe, strLe] using hab
    have hbc2 : lexLt c.data b.data = false := by
      simpa [nameLe, strLe] using hbc
    show (! lexLt c.data a.data) = true
    suffices h : lexLt c.data a.data = false by
      rw [h]
      rfl
    by_contra hca
    simp only [Bool.not_eq_false] at hca
    cases h2 : lexLt a.data b.data with
    | true =>
      have h3 := lexLt_trans c.data a.data b.data hca h2
      rw [hbc2] at h3
      cases h3
    | false =>
      have had : a.data = b.data := lexLt_connex a.data b.data h2 hab2
      rw [had] at hca
      rw [hbc2] at hca
      cases hca


/-! ### Computation and preservation lemmas for the conversion phases -/

theorem lookup_imgFold_ne (imgs : List Path) (img_dir : Path) (F : FS) (q : Path)
    (h : ∀ i ∈ imgs, q ≠ img_dir ++ [pathName i]) :
    (imgs.foldl (fun acc img => acc.copy2 img (img_dir ++ [pathName img])) F).lookup q =
      F.lookup q :=
  lookup_copyFold_ne imgs (fun i => img_dir ++ [pathName i]) F q h

theorem lookup_imgFold_dst (imgs : List Path) (img_dir : Path) (F : FS)
    (hnd : (imgs.map (fun i => img_dir ++ [pathName i])).Nodup)
    (hsd : ∀ i ∈ imgs, ∀ j ∈ imgs, i ≠ img_dir ++ [pathName j])
    (img : Path) (hmem : img ∈ imgs) (c : String) (enc : Option String)
    (hfile : F.lookup img = some (Entry.file c enc)) :
    (imgs.foldl (fun acc img => acc.copy2 img (img_dir ++ [pathName img])) F).lookup
      (img_dir ++ [pathName img]) = some (Entry.file c enc) :=
  lookup_copyFold_dst imgs (fun i => img_dir ++ [pathName i]) F hnd hsd img hmem c enc hfile

theorem copy_images_pos_eq (stem : String) (out : Path) (ki : Bool) (ex : ExtractResult)
    (hc : ex.images ≠ [] ∧ ki = true) :
    copy_images stem out ki ex =
      ex.images.foldl
        (fun acc img => acc.copy2 img ((out ++ [stem ++ "_images"]) ++ [pathName img]))
        (ex.fs.mkdirP (out ++ [stem ++ "_images"])) := by
  unfold copy_images
  rw [if_pos hc]

theorem copy_images_neg_eq (stem : String) (out : Path) (ki : Bool) (ex : ExtractResult)
    (hc : ¬ (ex.images ≠ [] ∧ ki = true)) :
    copy_images stem out ki ex = ex.fs := by
  unfold copy_images
  rw [if_neg hc]

theorem lookup_copy_images_cases (stem : String) (out : Path) (ki : Bool) (ex : ExtractResult)
    (q : Path) (h2 : ∀ n : String, q ≠ out ++ [stem ++ "_images", n]) :
    (copy_images stem out ki ex).lookup q = ex.fs.lookup q ∨
      (copy_images stem out ki ex).lookup q = some Entry.dir := by
  by_cases hc : ex.images ≠ [] ∧ ki = true
  · rw [copy_images_pos_eq stem out ki ex hc]
    rw [lookup_imgFold_ne ex.images (out ++ [stem ++ "_images"]) _ q ?hne]
    case hne =>
      intro i _
      have hpair : (out ++ [stem ++ "_images"]) ++ [pathName i] =
          out ++ [stem ++ "_images", pathName i] := by
        simp
      rw [hpair]
      exact h2 (pathName i)
    exact lookup_mkdirP_cases ex.fs (out ++ [stem ++ "_images"]) q
  · rw [copy_images_neg_eq stem out ki ex hc]
    exact Or.inl rfl

theorem lookup_copy_images_ne (stem : String) (out : Path) (ki : Bool) (ex : ExtractResult)
    (q : Path) (h1 : q ≠ out ++ [stem ++ "_images"])
    (h2 : ∀ n : String, q ≠ out ++ [stem ++ "_images", n]) :
    (copy_images stem out ki ex).lookup q = ex.fs.lookup q := by
  by_cases hc : ex.images ≠ [] ∧ ki = true
  · rw [copy_images_pos_eq stem out ki ex hc]
    rw [lookup_imgFold_ne ex.images (out ++ [stem ++ "_images"]) _ q ?hne2]
    case hne2 =>
      intro i _
      have hpair : (out ++ [stem ++ "_images"]) ++ [pathName i] =
          out ++ [stem ++ "_images", pathName i] := by
        simp
      rw [hpair]
      exact h2 (pathName i)
    exact lookup_mkdirP_ne ex.fs (out ++ [stem ++ "_images"]) q h1
  · rw [copy_images_neg_eq stem out ki ex hc]

theorem run_markitdown_success_eq (conv : ConvResult) (stem name date_stdout : String)
    (md_path : Path) (fs : FS) (h : conv.returncode = 0) :
    run_markitdown conv stem name date_stdout md_path fs =
      ⟨fs.set md_path
          (Entry.file (header_for stem name date_stdout ++ conv.stdout) (some "utf-8")), true⟩ := by
  unfold run_markitdown
  rw [if_pos h]

theorem run_markitdown_failure_eq (conv : ConvResult) (stem name date_stdout : String)
    (md_path : Path) (fs : FS) (h : ¬ conv.returncode = 0) :
    run_markitdown conv stem name date_stdout md_path fs = ⟨fs, false⟩ := by
  unfold run_markitdown
  rw [if_neg h]

theorem cleanup_none_eq (fs : FS) : cleanup_temp none fs = fs := rfl

theorem lookup_cleanup_some_ne (t : Path) (fs : FS) (q : Path) (h : ¬ q.take t.length = t) :
    (cleanup_temp (some t) fs).lookup q = fs.lookup q := by
  show (if fs.exists t = true then fs.rmtree t else fs).lookup q = fs.lookup q
  by_cases he : fs.exists t = true
  · rw [if_pos he]
    exact lookup_rmtree_not_under fs t q h
  · rw [if_neg he]

theorem exists_cleanup_some_false (t : Path) (fs : FS)
    (h : ∀ c enc, fs.lookup t ≠ some (Entry.file c enc)) :
    (cleanup_temp (some t) fs).exists t = false := by
  show (if fs.exists t = true then fs.rmtree t else fs).exists t = false
  by_cases he : fs.exists t = true
  · rw [if_pos he]
    cases hl : fs.lookup t with
    | none =>
      unfold FS.exists at he
      rw [hl] at he
      cases he
    | some v =>
      cases v with
      | file c enc => exact absurd hl (h c enc)
      | dir =>
        unfold FS.exists
        rw [lookup_rmtree_removed fs t hl]
        rfl
  · rw [if_neg he]
    unfold FS.exists at he ⊢
    simpa using he

theorem convert_eq (name : String) (zip : ZipOutcome) (conv : ConvResult)
    (date_stdout : String) (out : Path) (ki : Bool) (fs : FS) :
    convert_pptx_to_markdown name zip conv date_stdout out ki fs =
      ⟨cleanup_temp (extract_images_from_pptx zip out fs).temp_extract
          (run_markitdown conv (pathStem name) name date_stdout
            (out ++ [pathStem name ++ ".md"])
            (copy_images (pathStem name) out ki (extract_images_from_pptx zip out fs))).fs,
        (run_markitdown conv (pathStem name) name date_stdout
          (out ++ [pathStem name ++ ".md"])
          (copy_images (pathStem name) out ki (extract_images_from_pptx zip out fs))).success⟩ :=
  rfl


/-! ### Master lemmas about `convert_pptx_to_markdown` -/

theorem convert_success_decide (name : String) (zip : ZipOutcome) (conv : ConvResult)
    (date_stdout : String) (out : Path) (ki : Bool) (fs : FS) :
    (convert_pptx_to_markdown name zip conv date_stdout out ki fs).success =
      decide (conv.returncode = 0) := by
  show (run_markitdown conv (pathStem name) name date_stdout (out ++ [pathStem name ++ ".md"])
      (copy_images (pathStem name) out ki (extract_images_from_pptx zip out fs))).success = _
  by_cases h : conv.returncode = 0
  · rw [run_markitdown_success_eq _ _ _ _ _ _ h]
    simp [h]
  · rw [run_markitdown_failure_eq _ _ _ _ _ _ h]
    simp [h]

theorem take_md_ne_temp_dir (out : Path) (s : String) (l : Path) (hs : s ≠ "temp_extract") :
    ¬ (out ++ s :: l).take (out ++ ["temp_extract"]).length = out ++ ["temp_extract"] := by
  have hlen : (out ++ ["temp_extract"]).length = out.length + 1 := by simp
  rw [hlen, take_len_plus_one out s l]
  exact append_cons_ne out s "temp_extract" [] [] hs

theorem lookup_convert_generic_ne (name : String) (zip : ZipOutcome) (conv : ConvResult)
    (date_stdout : String) (out : Path) (ki : Bool) (fs : FS) (s : String) (l : Path)
    (hs1 : s ≠ "temp_extract") (hs2 : s ≠ pathStem name ++ "_images")
    (hs3 : out ++ s :: l ≠ out ++ [pathStem name ++ ".md"]) :
    (convert_pptx_to_markdown name zip conv date_stdout out ki fs).fs.lookup (out ++ s :: l) =
      fs.lookup (out ++ s :: l) := by
  show (cleanup_temp (extract_images_from_pptx zip out fs).temp_extract
      (run_markitdown conv (pathStem name) name date_stdout (out ++ [pathStem name ++ ".md"])
        (copy_images (pathStem name) out ki (extract_images_from_pptx zip out fs))).fs).lookup
      (out ++ s :: l) = fs.lookup (out ++ s :: l)
  have hstep2 : ∀ F : FS,
      (run_markitdown conv (pathStem name) name date_stdout (out ++ [pathStem name ++ ".md"])
        F).fs.lookup (out ++ s :: l) = F.lookup (out ++ s :: l) := by
    intro F
    by_cases h : conv.returncode = 0
    · rw [run_markitdown_success_eq _ _ _ _ _ _ h]
      exact lookup_set_ne F (out ++ [pathStem name ++ ".md"]) _ (out ++ s :: l) hs3
    · rw [run_markitdown_failure_eq _ _ _ _ _ _ h]
  have hstep3 :
      (copy_images (pathStem name) out ki (extract_images_from_pptx zip out fs)).lookup
        (out ++ s :: l) =
      (extract_images_from_pptx zip out fs).fs.lookup (out ++ s :: l) := by
    apply lookup_copy_images_ne
    · intro hh
      exact hs2 (append_cons_inj out s (pathStem name ++ "_images") l [] hh)
    · intro n hh
      exact hs2 (append_cons_inj out s (pathStem name ++ "_images") l [n] hh)
  have hstep4 := lookup_extract_ne zip out fs s l hs1
  rcases temp_ref_shape zip out fs with hr | hr
  · rw [hr, cleanup_none_eq, hstep2, hstep3, hstep4]
  · rw [hr, lookup_cleanup_some_ne _ _ _ (take_md_ne_temp_dir out s l hs1), hstep2, hstep3,
      hstep4]

theorem lookup_convert_md_failure (name : String) (zip : ZipOutcome) (conv : ConvResult)
    (date_stdout : String) (out : Path) (ki : Bool) (fs : FS) (h : ¬ conv.returncode = 0) :
    (convert_pptx_to_markdown name zip conv date_stdout out ki fs).fs.lookup
        (out ++ [pathStem name ++ ".md"]) = fs.lookup (out ++ [pathStem name ++ ".md"]) := by
  show (cleanup_temp (extract_images_from_pptx zip out fs).temp_extract
      (run_markitdown conv (pathStem name) name date_stdout (out ++ [pathStem name ++ ".md"])
        (copy_images (pathStem name) out ki (extract_images_from_pptx zip out fs))).fs).lookup
      (out ++ [pathStem name ++ ".md"]) = fs.lookup (out ++ [pathStem name ++ ".md"])
  have hstep2 :
      (run_markitdown conv (pathStem name) name date_stdout (out ++ [pathStem name ++ ".md"])
        (copy_images (pathStem name) out ki (extract_images_from_pptx zip out fs))).fs =
      copy_images (pathStem name) out ki (extract_images_from_pptx zip out fs) := by
    rw [run_markitdown_failure_eq _ _ _ _ _ _ h]
  have hstep3 :
      (copy_images (pathStem name) out ki (extract_images_from_pptx zip out fs)).lookup
        (out ++ [pathStem name ++ ".md"]) =
      (extract_images_from_pptx zip out fs).fs.lookup (out ++ [pathStem name ++ ".md"]) := by
    apply lookup_copy_images_ne
    · intro hh
      exact (append_images_ne_append_md (pathStem name)).symm
        (append_cons_inj out _ _ [] [] hh)
    · intro n hh
      exact (append_images_ne_append_md (pathStem name)).symm
        (append_cons_inj out _ _ [] [n] hh)
  have hstep4 := lookup_extract_ne zip out fs (pathStem name ++ ".md") []
    (append_md_ne_temp (pathStem name))
  rcases temp_ref_shape zip out fs with hr | hr
  · rw [hr, cleanup_none_eq, hstep2, hstep3]
    exact hstep4
  · rw [hr, lookup_cleanup_some_ne _ _ _
      (take_md_ne_temp_dir out (pathStem name ++ ".md") [] (append_md_ne_temp (pathStem name))),
      hstep2, hstep3]
    exact hstep4

theorem lookup_convert_md_success (name : String) (zip : ZipOutcome) (conv : ConvResult)
    (date_stdout : String) (out : Path) (ki : Bool) (fs : FS) (h : conv.returncode = 0) :
    (convert_pptx_to_markdown name zip conv date_stdout out ki fs).fs.lookup
        (out ++ [pathStem name ++ ".md"]) =
      some (Entry.file (header_for (pathStem name) name date_stdout ++ conv.stdout)
        (some "utf-8")) := by
  show (cleanup_temp (extract_images_from_pptx zip out fs).temp_extract
      (run_markitdown conv (pathStem name) name date_stdout (out ++ [pathStem name ++ ".md"])
        (copy_images (pathStem name) out ki (extract_images_from_pptx zip out fs))).fs).lookup
      (out ++ [pathStem name ++ ".md"]) = _
  have hstep2 :
      (run_markitdown conv (pathStem name) name date_stdout (out ++ [pathStem name ++ ".md"])
        (copy_images (pathStem name) out ki (extract_images_from_pptx zip out fs))).fs =
      (copy_images (pathStem name) out ki (extract_images_from_pptx zip out fs)).set
        (out ++ [pathStem name ++ ".md"])
        (Entry.file (header_for (pathStem name) name date_stdout ++ conv.stdout)
          (some "utf-8")) := by
    rw [run_markitdown_success_eq _ _ _ _ _ _ h]
  rcases temp_ref_shape zip out fs with hr | hr
  · rw [hr, cleanup_none_eq, hstep2]
    exact lookup_set_self _ _ _
  · rw [hr, lookup_cleanup_some_ne _ _ _
      (take_md_ne_temp_dir out (pathStem name ++ ".md") [] (append_md_ne_temp (pathStem name))),
      hstep2]
    exact lookup_set_self _ _ _


/-! ### Tracking that the temp path is never a regular file -/

theorem lookup_extract_ok_not_file_temp (entries : List ZipEntry) (out : Path) (fs : FS)
    (hnil : ∀ e ∈ entries, e.path ≠ [])
    (hfile : ∀ c enc, fs.lookup (out ++ ["temp_extract"]) ≠ some (Entry.file c enc)) :
    ∀ c enc, (extract_images_from_pptx (ZipOutcome.ok entries) out fs).fs.lookup
      (out ++ ["temp_extract"]) ≠ some (Entry.file c enc) := by
  rw [extract_fs_ok]
  apply lookup_extractAll_not_file fs (out ++ ["temp_extract"]) entries _ hfile
  intro e he hq
  have hlen := congrArg List.length hq
  rw [List.length_append, List.length_append, List.length_append] at hlen
  exact hnil e he (List.eq_nil_of_length_eq_zero (by omega))

theorem lookup_copy_images_not_file_temp (stem : String) (out : Path) (ki : Bool)
    (ex : ExtractResult)
    (h : ∀ c enc, ex.fs.lookup (out ++ ["temp_extract"]) ≠ some (Entry.file c enc)) :
    ∀ c enc, (copy_images stem out ki ex).lookup (out ++ ["temp_extract"]) ≠
      some (Entry.file c enc) := by
  intro c enc
  have h2 : ∀ n : String, out ++ ["temp_extract"] ≠ out ++ [stem ++ "_images", n] := by
    intro n
    exact append_cons_ne_of_length out "temp_extract" [] (stem ++ "_images") [n] (by simp)
  rcases lookup_copy_images_cases stem out ki ex (out ++ ["temp_extract"]) h2 with hcc | hcc
  · rw [hcc]
    exact h c enc
  · rw [hcc]
    intro hx
    cases hx

theorem lookup_run_markitdown_not_file_temp (conv : ConvResult)
    (stem name date_stdout : String) (out : Path) (F : FS)
    (h : ∀ c enc, F.lookup (out ++ ["temp_extract"]) ≠ some (Entry.file c enc)) :
    ∀ c enc, (run_markitdown conv stem name date_stdout (out ++ [stem ++ ".md"]) F).fs.lookup
      (out ++ ["temp_extract"]) ≠ some (Entry.file c enc) := by
  intro c enc
  by_cases hr : conv.returncode = 0
  · rw [run_markitdown_success_eq _ _ _ _ _ _ hr]
    have hne : out ++ ["temp_extract"] ≠ out ++ [stem ++ ".md"] :=
      append_cons_ne out "temp_extract" (stem ++ ".md") [] []
        (Ne.symm (append_md_ne_temp stem))
    show (F.set (out ++ [stem ++ ".md"]) _).lookup (out ++ ["temp_extract"]) ≠ _
    rw [lookup_set_ne F _ _ _ hne]
    exact h c enc
  · rw [run_markitdown_failure_eq _ _ _ _ _ _ hr]
    exact h c enc

/-! ### Agreement of the exception-aware model with the state-only model -/

theorem mkdirExn_ok (fs : FS) (p : Path) (F : FS) (h : fs.mkdirExn p = Except.ok F) :
    fs.mkdirP p = F := by
  unfold FS.mkdirExn at h
  unfold FS.mkdirP FS.exists
  cases hl : fs.lookup p with
  | none =>
    rw [hl] at h
    have h2 := Except.ok.inj h
    simpa using h2
  | some v =>
    cases v with
    | file c enc =>
      rw [hl] at h
      cases h
    | dir =>
      rw [hl] at h
      have h2 := Except.ok.inj h
      simpa using h2

theorem copy2Exn_ok (F : FS) (src dst : Path) (F2 : FS)
    (h : F.copy2Exn src dst = Except.ok F2) : F.copy2 src dst = F2 := by
  unfold FS.copy2Exn at h
  unfold FS.copy2
  cases hl : F.lookup src with
  | none =>
    rw [hl] at h
    cases h
  | some v =>
    cases v with
    | file c enc =>
      rw [hl] at h
      exact Except.ok.inj h
    | dir =>
      rw [hl] at h
      cases h

theorem copyLoopExn_ok : ∀ (imgs : List Path) (img_dir : Path) (F F2 : FS),
    copyLoopExn imgs img_dir F = Except.ok F2 →
    imgs.foldl (fun acc img => acc.copy2 img (img_dir ++ [pathName img])) F = F2 := by
  intro imgs
  induction imgs with
  | nil =>
    intro d F F2 h
    exact Except.ok.inj h
  | cons img rest ih =>
    intro d F F2 h
    rw [List.foldl_cons]
    unfold copyLoopExn at h
    cases hc : F.copy2Exn img (d ++ [pathName img]) with
    | error F3 =>
      rw [hc] at h
      cases h
    | ok F3 =>
      rw [hc] at h
      rw [copy2Exn_ok F img (d ++ [pathName img]) F3 hc]
      exact ih d F3 F2 h

theorem copy_images_exn_ok (stem : String) (out : Path) (ki : Bool) (ex : ExtractResult)
    (F : FS) (h : copy_images_exn stem out ki ex = Except.ok F) :
    copy_images stem out ki ex = F := by
  unfold copy_images_exn at h
  by_cases hc : ex.images ≠ [] ∧ ki = true
  · rw [if_pos hc] at h
    rw [copy_images_pos_eq stem out ki ex hc]
    cases hm : ex.fs.mkdirExn (out ++ [stem ++ "_images"]) with
    | error F0 =>
      rw [hm] at h
      cases h
    | ok F0 =>
      rw [hm] at h
      rw [mkdirExn_ok ex.fs _ F0 hm]
      exact copyLoopExn_ok ex.images (out ++ [stem ++ "_images"]) F0 F h
  · rw [if_neg hc] at h
    rw [copy_images_neg_eq stem out ki ex hc]
    exact Except.ok.inj h

theorem convert_run_eq (name : String) (zip : ZipOutcome) (conv : ConvResult)
    (date_stdout : String) (out : Path) (ki : Bool) (fs : FS) :
    convert_pptx_to_markdown_run name zip conv date_stdout out ki fs =
      match copy_images_exn (pathStem name) out ki (extract_images_from_pptx zip out fs) with
      | Except.error F => Except.error F
      | Except.ok fs1 =>
        Except.ok
          ⟨cleanup_temp (extract_images_from_pptx zip out fs).temp_extract
              (run_markitdown conv (pathStem name) name date_stdout
                (out ++ [pathStem name ++ ".md"]) fs1).fs,
            (run_markitdown conv (pathStem name) name date_stdout
              (out ++ [pathStem name ++ ".md"]) fs1).success⟩ := rfl

theorem convert_run_ok (name : String) (zip : ZipOutcome) (conv : ConvResult)
    (date_stdout : String) (out : Path) (ki : Bool) (fs : FS) (res : ConvertResult)
    (h : convert_pptx_to_markdown_run name zip conv date_stdout out ki fs = Except.ok res) :
    convert_pptx_to_markdown name zip conv date_stdout out ki fs = res := by
  rw [convert_run_eq name zip conv date_stdout out ki fs] at h
  rw [convert_eq]
  cases hc : copy_images_exn (pathStem name) out ki (extract_images_from_pptx zip out fs) with
  | error F =>
    rw [hc] at h
    cases h
  | ok F =>
    rw [hc] at h
    rw [copy_images_exn_ok (pathStem name) out ki (extract_images_from_pptx zip out fs) F hc]
    exact Except.ok.inj h

/-! ### Claim C1 -/

/-- C1 is refuted on the code: when extraction fails midway (a corrupt
archive raising after some members were written), `extract_images_from_pptx`
returns `None` as the temp reference, so the `finally` block of
`convert_pptx_to_markdown` skips cleanup and the partially extracted
`temp_extract` directory is still on disk after the invocation completes
(here even with success `True`). -/
theorem temp_dir_survives_failed_extraction :
    (convert_pptx_to_markdown "deck.pptx"
        (ZipOutcome.extractFail [⟨["ppt", "media", "a.png"], "X"⟩])
        ⟨0, "BODY", ""⟩ "2024-01-01" ["o"] false ⟨[(["o"], Entry.dir)]⟩).fs.exists
      ["o", "temp_extract"] = true ∧
    (convert_pptx_to_markdown "deck.pptx"
        (ZipOutcome.extractFail [⟨["ppt", "media", "a.png"], "X"⟩])
        ⟨0, "BODY", ""⟩ "2024-01-01" ["o"] false ⟨[(["o"], Entry.dir)]⟩).success = true := by
  constructor
  · decide
  · decide

/-- Helper for C1: on the state-only model, a returned temp reference is
cleaned up.  The claim theorem below transfers this to the
control-flow-faithful model, restricted to invocations that actually
return. -/
theorem convert_total_removes_temp (name : String) (entries : List ZipEntry)
    (conv : ConvResult) (date_stdout : String) (out : Path) (ki : Bool) (fs : FS) (t : Path)
    (hnil : ∀ e ∈ entries, e.path ≠ [])
    (hfile : ∀ c enc, fs.lookup (out ++ ["temp_extract"]) ≠ some (Entry.file c enc))
    (href : (extract_images_from_pptx (ZipOutcome.ok entries) out fs).temp_extract = some t) :
    (convert_pptx_to_markdown name (ZipOutcome.ok entries) conv date_stdout out ki
      fs).fs.exists t = false := by
  have ht : t = out ++ ["temp_extract"] := by
    rcases temp_ref_shape (ZipOutcome.ok entries) out fs with hr | hr
    · rw [href] at hr
      cases hr
    · rw [href] at hr
      exact Option.some.inj hr
  subst ht
  show (cleanup_temp (extract_images_from_pptx (ZipOutcome.ok entries) out fs).temp_extract
      (run_markitdown conv (pathStem name) name date_stdout (out ++ [pathStem name ++ ".md"])
        (copy_images (pathStem name) out ki
          (extract_images_from_pptx (ZipOutcome.ok entries) out fs))).fs).exists
      (out ++ ["temp_extract"]) = false
  rw [href]
  apply exists_cleanup_some_false
  exact lookup_run_markitdown_not_file_temp conv (pathStem name) name date_stdout out _
    (lookup_copy_images_not_file_temp (pathStem name) out ki _
      (lookup_extract_ok_not_file_temp entries out fs hnil hfile))

/-- C1 (amended): whenever the extractor returns a temporary-directory
reference and the invocation actually returns — the image-copy step raises
no uncaught exception — `convert_pptx_to_markdown` removes that directory
before returning, on success and failure alike.  The temp directory can
remain only when no reference was returned (extraction failed midway,
counterexample above) or when the copy step raises before the
`try`/`finally` (see the C8 counterexample).  (The archive's member names
are taken non-empty, and the fixed temp path is not pre-occupied by a
regular file, as in any real run.) -/
theorem temp_dir_removed_when_reference_returned (name : String) (entries : List ZipEntry)
    (conv : ConvResult) (date_stdout : String) (out : Path) (ki : Bool) (fs : FS) (t : Path)
    (res : ConvertResult)
    (hnil : ∀ e ∈ entries, e.path ≠ [])
    (hfile : ∀ c enc, fs.lookup (out ++ ["temp_extract"]) ≠ some (Entry.file c enc))
    (href : (extract_images_from_pptx (ZipOutcome.ok entries) out fs).temp_extract = some t)
    (hrun : convert_pptx_to_markdown_run name (ZipOutcome.ok entries) conv date_stdout out ki
      fs = Except.ok res) :
    res.fs.exists t = false := by
  have hagree := convert_run_ok name (ZipOutcome.ok entries) conv date_stdout out ki fs res
    hrun
  rw [← hagree]
  exact convert_total_removes_temp name entries conv date_stdout out ki fs t hnil hfile href

/-- C1 (amended) witnessed on a concrete run: a one-image archive extracted
into an empty output directory; the faithful model returns, and the temp
directory is gone afterwards. -/
theorem temp_dir_removed_when_reference_returned_witness :
    (convert_pptx_to_markdown "deck.pptx"
        (ZipOutcome.ok [⟨["ppt", "media", "a.png"], "A"⟩])
        ⟨0, "BODY", ""⟩ "2024-01-01" ["o"] true ⟨[(["o"], Entry.dir)]⟩).fs.exists
      ["o", "temp_extract"] = false :=
  temp_dir_removed_when_reference_returned "deck.pptx"
    [⟨["ppt", "media", "a.png"], "A"⟩] ⟨0, "BODY", ""⟩ "2024-01-01" ["o"] true
    ⟨[(["o"], Entry.dir)]⟩ ["o", "temp_extract"]
    (convert_pptx_to_markdown "deck.pptx" (ZipOutcome.ok [⟨["ppt", "media", "a.png"], "A"⟩])
      ⟨0, "BODY", ""⟩ "2024-01-01" ["o"] true ⟨[(["o"], Entry.dir)]⟩)
    (by decide)
    (fun c enc h => Option.noConfusion h)
    (by decide)
    (by rfl)

/-! ### Claim C2 -/

/-- C2: for every input file, if the external converter subprocess exits
with a non-zero status, `convert_pptx_to_markdown` returns `False` and the
output document path `output_dir / (stem + ".md")` is left exactly as it
was (in particular no output document is written). -/
theorem converter_failure_writes_nothing_and_reports_failure (name : String)
    (zip : ZipOutcome) (conv : ConvResult) (date_stdout : String) (out : Path) (ki : Bool)
    (fs : FS) (h : conv.returncode ≠ 0) :
    (convert_pptx_to_markdown name zip conv date_stdout out ki fs).success = false ∧
    (convert_pptx_to_markdown name zip conv date_stdout out ki fs).fs.lookup
        (out ++ [pathStem name ++ ".md"]) = fs.lookup (out ++ [pathStem name ++ ".md"]) := by
  constructor
  · rw [convert_success_decide]
    simp [h]
  · exact lookup_convert_md_failure name zip conv date_stdout out ki fs h

/-- C2 witnessed on a concrete run: converter exit code 1 on a one-image
archive; the function reports failure and `deck.md` is absent afterwards
exactly as it was absent before. -/
theorem converter_failure_writes_nothing_and_reports_failure_witness :
    (convert_pptx_to_markdown "deck.pptx" (ZipOutcome.ok [⟨["ppt", "media", "a.png"], "A"⟩])
        ⟨1, "", "boom"⟩ "2024-01-01" ["o"] true ⟨[(["o"], Entry.dir)]⟩).success = false ∧
    (convert_pptx_to_markdown "deck.pptx" (ZipOutcome.ok [⟨["ppt", "media", "a.png"], "A"⟩])
        ⟨1, "", "boom"⟩ "2024-01-01" ["o"] true ⟨[(["o"], Entry.dir)]⟩).fs.lookup
        (["o"] ++ [pathStem "deck.pptx" ++ ".md"]) =
      (⟨[(["o"], Entry.dir)]⟩ : FS).lookup (["o"] ++ [pathStem "deck.pptx" ++ ".md"]) :=
  converter_failure_writes_nothing_and_reports_failure "deck.pptx"
    (ZipOutcome.ok [⟨["ppt", "media", "a.png"], "A"⟩]) ⟨1, "", "boom"⟩ "2024-01-01" ["o"]
    true ⟨[(["o"], Entry.dir)]⟩ (by decide)

/-! ### Claim C3 -/

/-- C3 is refuted on the code: with the retain-images flag set, the image
copies are made before the converter runs, so a run whose conversion fails
still leaves `deck_images/a.png` in the output directory — output-side
state is not unchanged on error. -/
theorem failed_conversion_leaves_copied_images :
    (convert_pptx_to_markdown "deck.pptx" (ZipOutcome.ok [⟨["ppt", "media", "a.png"], "A"⟩])
        ⟨1, "", "boom"⟩ "2024-01-01" ["o"] true ⟨[(["o"], Entry.dir)]⟩).success = false ∧
    (convert_pptx_to_markdown "deck.pptx" (ZipOutcome.ok [⟨["ppt", "media", "a.png"], "A"⟩])
        ⟨1, "", "boom"⟩ "2024-01-01" ["o"] true ⟨[(["o"], Entry.dir)]⟩).fs.lookup
        ["o", "deck_images", "a.png"] = some (Entry.file "A" none) ∧
    (⟨[(["o"], Entry.dir)]⟩ : FS).lookup ["o", "deck_images", "a.png"] = none := by
  refine ⟨?_, ?_, ?_⟩
  · decide
  · decide
  · decide

/-- C3 (amended): when `convert_pptx_to_markdown` returns failure the
output document itself (`output_dir / (stem + ".md")`) is untouched — no
partial document is written — but artifacts of the earlier steps (the
`<stem>_images` copies, and on extraction failure a partial temp
directory) may remain in the output directory. -/
theorem failed_conversion_leaves_document_untouched (name : String) (zip : ZipOutcome)
    (conv : ConvResult) (date_stdout : String) (out : Path) (ki : Bool) (fs : FS)
    (h : conv.returncode ≠ 0) :
    (convert_pptx_to_markdown name zip conv date_stdout out ki fs).fs.lookup
        (out ++ [pathStem name ++ ".md"]) = fs.lookup (out ++ [pathStem name ++ ".md"]) :=
  lookup_convert_md_failure name zip conv date_stdout out ki fs h

/-- C3 (amended) witnessed on a concrete failing run without images kept:
the document path is untouched. -/
theorem failed_conversion_leaves_document_untouched_witness :
    (convert_pptx_to_markdown "deck.pptx" (ZipOutcome.ok [⟨["ppt", "media", "a.png"], "A"⟩])
        ⟨2, "", "err"⟩ "2024-01-01" ["o"] false ⟨[(["o"], Entry.dir)]⟩).fs.lookup
        (["o"] ++ [pathStem "deck.pptx" ++ ".md"]) =
      (⟨[(["o"], Entry.dir)]⟩ : FS).lookup (["o"] ++ [pathStem "deck.pptx" ++ ".md"]) :=
  failed_conversion_leaves_document_untouched "deck.pptx"
    (ZipOutcome.ok [⟨["ppt", "media", "a.png"], "A"⟩]) ⟨2, "", "err"⟩ "2024-01-01" ["o"]
    false ⟨[(["o"], Entry.dir)]⟩ (by decide)

/-! ### Claim C4 -/

/-- C4: when the converter exits 0, `convert_pptx_to_markdown` returns
`True` and writes `output_dir / (stem + ".md")` — overwriting whatever was
there — with content exactly the metadata header (title line with the
input's stem, the source file name, the stripped `date` timestamp, and a
separator) concatenated with the converter's captured stdout, in UTF-8
encoding. -/
theorem converter_success_writes_header_and_body (name : String) (zip : ZipOutcome)
    (conv : ConvResult) (date_stdout : String) (out : Path) (ki : Bool) (fs : FS)
    (h : conv.returncode = 0) :
    (convert_pptx_to_markdown name zip conv date_stdout out ki fs).success = true ∧
    (convert_pptx_to_markdown name zip conv date_stdout out ki fs).fs.lookup
        (out ++ [pathStem name ++ ".md"]) =
      some (Entry.file (header_for (pathStem name) name date_stdout ++ conv.stdout)
        (some "utf-8")) := by
  constructor
  · rw [convert_success_decide]
    simp [h]
  · exact lookup_convert_md_success name zip conv date_stdout out ki fs h

/-- C4 witnessed on a concrete successful run, overwriting a pre-existing
`deck.md`: the document contains the exact header plus the converter's
stdout. -/
theorem converter_success_writes_header_and_body_witness :
    (convert_pptx_to_markdown "deck.pptx" (ZipOutcome.ok [⟨["ppt", "media", "a.png"], "A"⟩])
        ⟨0, "BODY", ""⟩ "2024-01-01 10:00:00\n" ["o"] false
        ⟨[(["o"], Entry.dir), (["o", "deck.md"], Entry.file "OLD" none)]⟩).success = true ∧
    (convert_pptx_to_markdown "deck.pptx" (ZipOutcome.ok [⟨["ppt", "media", "a.png"], "A"⟩])
        ⟨0, "BODY", ""⟩ "2024-01-01 10:00:00\n" ["o"] false
        ⟨[(["o"], Entry.dir), (["o", "deck.md"], Entry.file "OLD" none)]⟩).fs.lookup
        (["o"] ++ [pathStem "deck.pptx" ++ ".md"]) =
      some (Entry.file
        (header_for (pathStem "deck.pptx") "deck.pptx" "2024-01-01 10:00:00\n" ++ "BODY")
        (some "utf-8")) :=
  converter_success_writes_header_and_body "deck.pptx"
    (ZipOutcome.ok [⟨["ppt", "media", "a.png"], "A"⟩]) ⟨0, "BODY", ""⟩
    "2024-01-01 10:00:00\n" ["o"] false
    ⟨[(["o"], Entry.dir), (["o", "deck.md"], Entry.file "OLD" none)]⟩ (by decide)


/-! ### Claim C6 -/

/-- C6: on any unpacking failure (the archive fails to open, or extraction
raises midway), `extract_images_from_pptx` does not raise past its
boundary: it takes the warning branch and returns an empty image list with
no temporary-directory reference, and the caller proceeds — the pipeline
still runs to completion with its success determined solely by the
converter's exit code. -/
theorem unpack_failure_returns_empty_and_warns (zip : ZipOutcome) (out : Path) (fs : FS)
    (name : String) (conv : ConvResult) (date_stdout : String) (ki : Bool)
    (h : zip = ZipOutcome.openFail ∨ ∃ done, zip = ZipOutcome.extractFail done) :
    (extract_images_from_pptx zip out fs).images = [] ∧
    (extract_images_from_pptx zip out fs).temp_extract = none ∧
    (extract_images_from_pptx zip out fs).warned = true ∧
    (convert_pptx_to_markdown name zip conv date_stdout out ki fs).success =
      decide (conv.returncode = 0) := by
  rcases h with h | ⟨done, h⟩
  · subst h
    exact ⟨rfl, rfl, rfl, convert_success_decide name ZipOutcome.openFail conv date_stdout
      out ki fs⟩
  · subst h
    exact ⟨rfl, rfl, rfl, convert_success_decide name (ZipOutcome.extractFail done) conv
      date_stdout out ki fs⟩

/-- C6 witnessed on a concrete unreadable archive. -/
theorem unpack_failure_returns_empty_and_warns_witness :
    (extract_images_from_pptx ZipOutcome.openFail ["o"] ⟨[(["o"], Entry.dir)]⟩).images = [] ∧
    (extract_images_from_pptx ZipOutcome.openFail ["o"]
      ⟨[(["o"], Entry.dir)]⟩).temp_extract = none ∧
    (extract_images_from_pptx ZipOutcome.openFail ["o"] ⟨[(["o"], Entry.dir)]⟩).warned = true ∧
    (convert_pptx_to_markdown "deck.pptx" ZipOutcome.openFail ⟨0, "BODY", ""⟩ "2024" ["o"]
      true ⟨[(["o"], Entry.dir)]⟩).success = decide ((⟨0, "BODY", ""⟩ : ConvResult).returncode = 0) :=
  unpack_failure_returns_empty_and_warns ZipOutcome.openFail ["o"] ⟨[(["o"], Entry.dir)]⟩
    "deck.pptx" ⟨0, "BODY", ""⟩ "2024" true (Or.inl rfl)

/-! ### Claim C7 -/

/-- C7: for a valid archive that contains no `ppt/media` folder,
`extract_images_from_pptx` returns zero assets together with the
temporary-directory reference and does not take the warning branch — an
outcome distinct from the unpacking-failure case, which returns no
reference and warns. -/
theorem missing_media_folder_returns_empty_without_warning (entries : List ZipEntry)
    (out : Path) (fs : FS)
    (h : (FS.extractAll fs (out ++ ["temp_extract"]) entries).lookup
      ((out ++ ["temp_extract"]) ++ ["ppt", "media"]) = none) :
    (extract_images_from_pptx (ZipOutcome.ok entries) out fs).images = [] ∧
    (extract_images_from_pptx (ZipOutcome.ok entries) out fs).temp_extract =
      some (out ++ ["temp_extract"]) ∧
    (extract_images_from_pptx (ZipOutcome.ok entries) out fs).warned = false := by
  rw [extract_ok_media_none entries out fs h]
  exact ⟨rfl, rfl, rfl⟩

/-- C7 witnessed on a concrete archive with no media folder. -/
theorem missing_media_folder_returns_empty_without_warning_witness :
    (extract_images_from_pptx (ZipOutcome.ok [⟨["x.txt"], "X"⟩]) ["o"] ⟨[]⟩).images = [] ∧
    (extract_images_from_pptx (ZipOutcome.ok [⟨["x.txt"], "X"⟩]) ["o"] ⟨[]⟩).temp_extract =
      some (["o"] ++ ["temp_extract"]) ∧
    (extract_images_from_pptx (ZipOutcome.ok [⟨["x.txt"], "X"⟩]) ["o"] ⟨[]⟩).warned = false :=
  missing_media_folder_returns_empty_without_warning [⟨["x.txt"], "X"⟩] ["o"] ⟨[]⟩ (by decide)

/-! ### Claim C9 -/

/-- C9 is refuted on the code: the extraction directory is the fixed path
`output_dir / "temp_extract"`, not a fresh per-file directory.  When a
previous invocation left that directory behind (here with `stale.txt`
inside), the next invocation extracts into the very same pre-existing
directory: afterwards it holds both the stale file and the newly extracted
archive contents, and is returned as this invocation's temp reference. -/
theorem extraction_reuses_preexisting_temp_dir :
    (extract_images_from_pptx (ZipOutcome.ok [⟨["ppt", "media", "a.png"], "A"⟩]) ["o"]
        ⟨[(["o"], Entry.dir), (["o", "temp_extract"], Entry.dir),
          (["o", "temp_extract", "stale.txt"], Entry.file "S" none)]⟩).temp_extract =
      some ["o", "temp_extract"] ∧
    (extract_images_from_pptx (ZipOutcome.ok [⟨["ppt", "media", "a.png"], "A"⟩]) ["o"]
        ⟨[(["o"], Entry.dir), (["o", "temp_extract"], Entry.dir),
          (["o", "temp_extract", "stale.txt"], Entry.file "S" none)]⟩).fs.lookup
        ["o", "temp_extract", "stale.txt"] = some (Entry.file "S" none) ∧
    (extract_images_from_pptx (ZipOutcome.ok [⟨["ppt", "media", "a.png"], "A"⟩]) ["o"]
        ⟨[(["o"], Entry.dir), (["o", "temp_extract"], Entry.dir),
          (["o", "temp_extract", "stale.txt"], Entry.file "S" none)]⟩).fs.lookup
        ["o", "temp_extract", "ppt", "media", "a.png"] = some (Entry.file "A" none) := by
  refine ⟨?_, ?_, ?_⟩
  · decide
  · decide
  · decide

/-- C9 (amended): the extractor unpacks into the fixed directory
`output_dir / "temp_extract"`, shared by every invocation with the same
output root (the reference it returns, when any, is always that one path
independent of the input file); a pre-existing directory there is merged
into, not replaced: every pre-existing entry whose path is not one of the
archive's member target paths survives extraction unchanged. -/
theorem extraction_target_fixed_and_merging (entries : List ZipEntry) (out : Path) (fs : FS)
    (q : Path) (v : Entry) (hq : fs.lookup q = some v)
    (hw : ∀ e ∈ entries, q ≠ (out ++ ["temp_extract"]) ++ e.path) :
    ((extract_images_from_pptx (ZipOutcome.ok entries) out fs).temp_extract = none ∨
      (extract_images_from_pptx (ZipOutcome.ok entries) out fs).temp_extract =
        some (out ++ ["temp_extract"])) ∧
    (extract_images_from_pptx (ZipOutcome.ok entries) out fs).fs.lookup q = some v := by
  constructor
  · exact temp_ref_shape (ZipOutcome.ok entries) out fs
  · rw [extract_fs_ok]
    exact lookup_extractAll_some fs (out ++ ["temp_extract"]) entries q v hq hw

/-- C9 (amended) witnessed on the stale-file scenario. -/
theorem extraction_target_fixed_and_merging_witness :
    ((extract_images_from_pptx (ZipOutcome.ok [⟨["ppt", "media", "a.png"], "A"⟩]) ["o"]
        ⟨[(["o"], Entry.dir), (["o", "temp_extract"], Entry.dir),
          (["o", "temp_extract", "stale.txt"], Entry.file "S" none)]⟩).temp_extract = none ∨
      (extract_images_from_pptx (ZipOutcome.ok [⟨["ppt", "media", "a.png"], "A"⟩]) ["o"]
        ⟨[(["o"], Entry.dir), (["o", "temp_extract"], Entry.dir),
          (["o", "temp_extract", "stale.txt"], Entry.file "S" none)]⟩).temp_extract =
        some (["o"] ++ ["temp_extract"])) ∧
    (extract_images_from_pptx (ZipOutcome.ok [⟨["ppt", "media", "a.png"], "A"⟩]) ["o"]
        ⟨[(["o"], Entry.dir), (["o", "temp_extract"], Entry.dir),
          (["o", "temp_extract", "stale.txt"], Entry.file "S" none)]⟩).fs.lookup
        ["o", "temp_extract", "stale.txt"] = some (Entry.file "S" none) :=
  extraction_target_fixed_and_merging [⟨["ppt", "media", "a.png"], "A"⟩] ["o"]
    ⟨[(["o"], Entry.dir), (["o", "temp_extract"], Entry.dir),
      (["o", "temp_extract", "stale.txt"], Entry.file "S" none)]⟩
    ["o", "temp_extract", "stale.txt"] (Entry.file "S" none) (by decide) (by decide)

/-! ### Claim C10 -/

/-- C10: the media filter selects entries solely by filename suffix and
only at the top level of the media folder: a file nested in a subfolder is
not returned even with an allowed extension, while the subfolder itself is
returned as an image asset when its own name ends in an allowed extension
(no regular-file check is performed) — here the directory
`ppt/media/x.png`, created for the nested member `x.png/inner.gif`, is
listed as an image. -/
theorem media_filter_by_suffix_top_level_only :
    (extract_images_from_pptx
        (ZipOutcome.ok [⟨["ppt", "media", "x.png", "inner.gif"], "D"⟩,
          ⟨["ppt", "media", "a.png"], "A"⟩]) ["o"] ⟨[]⟩).images =
      [["o", "temp_extract", "ppt", "media", "a.png"],
        ["o", "temp_extract", "ppt", "media", "x.png"]] ∧
    (extract_images_from_pptx
        (ZipOutcome.ok [⟨["ppt", "media", "x.png", "inner.gif"], "D"⟩,
          ⟨["ppt", "media", "a.png"], "A"⟩]) ["o"] ⟨[]⟩).fs.lookup
        ["o", "temp_extract", "ppt", "media", "x.png"] = some Entry.dir ∧
    ¬ ["o", "temp_extract", "ppt", "media", "x.png", "inner.gif"] ∈
      (extract_images_from_pptx
        (ZipOutcome.ok [⟨["ppt", "media", "x.png", "inner.gif"], "D"⟩,
          ⟨["ppt", "media", "a.png"], "A"⟩]) ["o"] ⟨[]⟩).images := by
  refine ⟨?_, ?_, ?_⟩
  · decide
  · decide
  · decide


/-! ### Claim C5 -/

/-- C5: for a valid archive whose media folder exists, the returned assets
are exactly the media-folder children whose (case-insensitively lowered)
suffix is on the allow-list — disallowed entries are dropped — and they
come back in code-point lexicographic filename order, one asset per
matching name. -/
theorem extract_returns_allowed_images_sorted (entries : List ZipEntry) (out : Path) (fs : FS)
    (hmedia : (FS.extractAll fs (out ++ ["temp_extract"]) entries).lookup
      ((out ++ ["temp_extract"]) ++ ["ppt", "media"]) = some Entry.dir) :
    (∀ n : String,
      ((out ++ ["temp_extract"]) ++ ["ppt", "media"]) ++ [n] ∈
          (extract_images_from_pptx (ZipOutcome.ok entries) out fs).images ↔
        (n ∈ (FS.extractAll fs (out ++ ["temp_extract"]) entries).childNames
            ((out ++ ["temp_extract"]) ++ ["ppt", "media"]) ∧ isImageName n = true)) ∧
    List.Sorted nameLe
      ((extract_images_from_pptx (ZipOutcome.ok entries) out fs).images.map pathName) ∧
    (extract_images_from_pptx (ZipOutcome.ok entries) out fs).images.length =
      (((FS.extractAll fs (out ++ ["temp_extract"]) entries).childNames
          ((out ++ ["temp_extract"]) ++ ["ppt", "media"])).filter isImageName).length := by
  have himg : (extract_images_from_pptx (ZipOutcome.ok entries) out fs).images =
      (((FS.extractAll fs (out ++ ["temp_extract"]) entries).sortedChildren
          ((out ++ ["temp_extract"]) ++ ["ppt", "media"])).filter isImageName).map
        (fun n => ((out ++ ["temp_extract"]) ++ ["ppt", "media"]) ++ [n]) := by
    rw [extract_ok_media_dir entries out fs hmedia]
  have hsc : (FS.extractAll fs (out ++ ["temp_extract"]) entries).sortedChildren
      ((out ++ ["temp_extract"]) ++ ["ppt", "media"]) =
      List.insertionSort nameLe
        ((FS.extractAll fs (out ++ ["temp_extract"]) entries).childNames
          ((out ++ ["temp_extract"]) ++ ["ppt", "media"])) := rfl
  refine ⟨?_, ?_, ?_⟩
  · intro n
    rw [himg]
    constructor
    · intro h
      rcases List.mem_map.mp h with ⟨m, hm, heq⟩
      have hmn : m = n := by
        have h3 := List.append_cancel_left heq
        exact (List.cons.injEq m [] n [] ▸ h3).1
      subst hmn
      rcases List.mem_filter.mp hm with ⟨hmem, hflt⟩
      rw [hsc] at hmem
      exact ⟨(List.perm_insertionSort nameLe _).mem_iff.mp hmem, hflt⟩
    · intro h
      refine List.mem_map.mpr ⟨n, List.mem_filter.mpr ⟨?_, h.2⟩, rfl⟩
      rw [hsc]
      exact (List.perm_insertionSort nameLe _).mem_iff.mpr h.1
  · rw [himg, map_pathName_map_append]
    rw [hsc]
    exact (List.sorted_insertionSort nameLe _).filter isImageName
  · rw [himg, List.length_map, hsc]
    exact ((List.perm_insertionSort nameLe _).filter isImageName).length_eq

/-- C5 witnessed on a concrete archive with two allowed images (one with an
upper-case extension), one disallowed entry: order and count come out as
claimed. -/
theorem extract_returns_allowed_images_sorted_witness :
    List.Sorted nameLe
      ((extract_images_from_pptx
          (ZipOutcome.ok [⟨["ppt", "media", "b.jpg"], "B"⟩, ⟨["ppt", "media", "a.PNG"], "A"⟩,
            ⟨["ppt", "media", "notes.xml"], "N"⟩]) ["o"] ⟨[]⟩).images.map pathName) ∧
    (extract_images_from_pptx
        (ZipOutcome.ok [⟨["ppt", "media", "b.jpg"], "B"⟩, ⟨["ppt", "media", "a.PNG"], "A"⟩,
          ⟨["ppt", "media", "notes.xml"], "N"⟩]) ["o"] ⟨[]⟩).images.length =
      (((FS.extractAll ⟨[]⟩ (["o"] ++ ["temp_extract"])
          [⟨["ppt", "media", "b.jpg"], "B"⟩, ⟨["ppt", "media", "a.PNG"], "A"⟩,
            ⟨["ppt", "media", "notes.xml"], "N"⟩]).childNames
          ((["o"] ++ ["temp_extract"]) ++ ["ppt", "media"])).filter isImageName).length :=
  ⟨(extract_returns_allowed_images_sorted
      [⟨["ppt", "media", "b.jpg"], "B"⟩, ⟨["ppt", "media", "a.PNG"], "A"⟩,
        ⟨["ppt", "media", "notes.xml"], "N"⟩] ["o"] ⟨[]⟩ (by decide)).2.1,
    (extract_returns_allowed_images_sorted
      [⟨["ppt", "media", "b.jpg"], "B"⟩, ⟨["ppt", "media", "a.PNG"], "A"⟩,
        ⟨["ppt", "media", "notes.xml"], "N"⟩] ["o"] ⟨[]⟩ (by decide)).2.2⟩


/-! ### Claim C8 -/

theorem append_singleton_injective (p : Path) :
    Function.Injective (fun n : String => p ++ [n]) := by
  intro a b h
  have h2 := List.append_cancel_left h
  exact (List.cons.injEq a [] b [] ▸ h2).1

theorem path_ne_append_singleton (p : Path) (n : String) : p ≠ p ++ [n] := by
  intro h
  have h2 := congrArg List.length h
  simp only [List.length_append, List.length_cons, List.length_nil] at h2
  omega

theorem lookup_convert_imgdir_path (name : String) (zip : ZipOutcome) (conv : ConvResult)
    (date_stdout : String) (out : Path) (ki : Bool) (fs : FS) (l : Path) :
    (convert_pptx_to_markdown name zip conv date_stdout out ki fs).fs.lookup
        (out ++ (pathStem name ++ "_images") :: l) =
      (copy_images (pathStem name) out ki (extract_images_from_pptx zip out fs)).lookup
        (out ++ (pathStem name ++ "_images") :: l) := by
  show (cleanup_temp (extract_images_from_pptx zip out fs).temp_extract
      (run_markitdown conv (pathStem name) name date_stdout (out ++ [pathStem name ++ ".md"])
        (copy_images (pathStem name) out ki (extract_images_from_pptx zip out fs))).fs).lookup
      (out ++ (pathStem name ++ "_images") :: l) = _
  have hstep2 : ∀ F : FS,
      (run_markitdown conv (pathStem name) name date_stdout (out ++ [pathStem name ++ ".md"])
        F).fs.lookup (out ++ (pathStem name ++ "_images") :: l) =
      F.lookup (out ++ (pathStem name ++ "_images") :: l) := by
    intro F
    by_cases h : conv.returncode = 0
    · rw [run_markitdown_success_eq _ _ _ _ _ _ h]
      exact lookup_set_ne F _ _ _
        (append_cons_ne out _ _ l [] (append_images_ne_append_md (pathStem name)))
    · rw [run_markitdown_failure_eq _ _ _ _ _ _ h]
  rcases temp_ref_shape zip out fs with hr | hr
  · rw [hr, cleanup_none_eq, hstep2]
  · rw [hr, lookup_cleanup_some_ne _ _ _
      (take_md_ne_temp_dir out _ l (append_images_ne_temp (pathStem name))), hstep2]

/-- Helper for C8: the copy conclusions on the state-only model.  The
claim theorem below transfers them to the control-flow-faithful model,
restricted to invocations that actually return. -/
theorem convert_total_keep_images (name : String) (zip : ZipOutcome) (conv : ConvResult)
    (date_stdout : String) (out : Path) (fs : FS)
    (hne : (extract_images_from_pptx zip out fs).images ≠ []) :
    (convert_pptx_to_markdown name zip conv date_stdout out true fs).fs.exists
        (out ++ [pathStem name ++ "_images"]) = true ∧
    ∀ img ∈ (extract_images_from_pptx zip out fs).images, ∀ (c : String) (enc : Option String),
      (extract_images_from_pptx zip out fs).fs.lookup img = some (Entry.file c enc) →
      (convert_pptx_to_markdown name zip conv date_stdout out true fs).fs.lookup
          (out ++ [pathStem name ++ "_images", pathName img]) = some (Entry.file c enc) := by
  have hc : (extract_images_from_pptx zip out fs).images ≠ [] ∧ (true : Bool) = true :=
    ⟨hne, rfl⟩
  have hcopy := copy_images_pos_eq (pathStem name) out true
    (extract_images_from_pptx zip out fs) hc
  constructor
  · have h1 := lookup_convert_imgdir_path name zip conv date_stdout out true fs []
    have h2 : (copy_images (pathStem name) out true
        (extract_images_from_pptx zip out fs)).lookup
          (out ++ [pathStem name ++ "_images"]) =
        ((extract_images_from_pptx zip out fs).fs.mkdirP
          (out ++ [pathStem name ++ "_images"])).lookup
          (out ++ [pathStem name ++ "_images"]) := by
      rw [hcopy]
      apply lookup_imgFold_ne
      intro i _
      exact path_ne_append_singleton (out ++ [pathStem name ++ "_images"]) (pathName i)
    show ((convert_pptx_to_markdown name zip conv date_stdout out true fs).fs.lookup
      (out ++ [pathStem name ++ "_images"])).isSome = true
    rw [h1, h2]
    exact exists_mkdirP_self (extract_images_from_pptx zip out fs).fs
      (out ++ [pathStem name ++ "_images"])
  · intro img hmem c enc hfile
    have h1 := lookup_convert_imgdir_path name zip conv date_stdout out true fs [pathName img]
    rw [h1, hcopy]
    have hpair : (out ++ [pathStem name ++ "_images"]) ++ [pathName img] =
        out ++ [pathStem name ++ "_images", pathName img] := by
      simp
    rw [← hpair]
    have hinj : Function.Injective
        (fun n : String => (out ++ [pathStem name ++ "_images"]) ++ [n]) :=
      append_singleton_injective (out ++ [pathStem name ++ "_images"])
    have hnd0 := (images_names_nodup zip out fs).map hinj
    have hnd : ((extract_images_from_pptx zip out fs).images.map
        (fun i => (out ++ [pathStem name ++ "_images"]) ++ [pathName i])).Nodup := by
      rw [List.map_map] at hnd0
      exact hnd0
    have hsd : ∀ i ∈ (extract_images_from_pptx zip out fs).images,
        ∀ j ∈ (extract_images_from_pptx zip out fs).images,
        i ≠ (out ++ [pathStem name ++ "_images"]) ++ [pathName j] := by
      intro i hi j _ hh
      rcases mem_images_shape zip out fs i hi with ⟨n, _, hshape⟩
      rw [hshape] at hh
      have hlen := congrArg List.length hh
      simp only [List.length_append, List.length_cons, List.length_nil] at hlen
      omega
    exact lookup_imgFold_dst (extract_images_from_pptx zip out fs).images
      (out ++ [pathStem name ++ "_images"])
      ((extract_images_from_pptx zip out fs).fs.mkdirP (out ++ [pathStem name ++ "_images"]))
      hnd hsd img hmem c enc
      (lookup_mkdirP_some (extract_images_from_pptx zip out fs).fs
        (out ++ [pathStem name ++ "_images"]) img (Entry.file c enc) hfile)

/-- C8 is refuted on the code: for an archive whose media folder holds the
directory entry `a.png` (created as the parent of the nested member
`a.png/inner.gif`, and an image asset by C10) together with the regular
image `b.jpg`, with the retain-images flag set, assets are found — yet the
invocation raises `IsADirectoryError` inside `shutil.copy2` on the first
(sorted) asset, before the `try`/`finally`: `b.jpg` is never copied into
`deck_images`, no output document is written, no success value is
returned, and the temp directory is left on disk.  The error state is the
extracted tree plus the just-created `deck_images` folder, nothing more. -/
theorem directory_asset_aborts_copying :
    (extract_images_from_pptx
        (ZipOutcome.ok [⟨["ppt", "media", "a.png", "inner.gif"], "D"⟩,
          ⟨["ppt", "media", "b.jpg"], "B"⟩]) ["o"] ⟨[(["o"], Entry.dir)]⟩).images ≠ [] ∧
    convert_pptx_to_markdown_run "deck.pptx"
        (ZipOutcome.ok [⟨["ppt", "media", "a.png", "inner.gif"], "D"⟩,
          ⟨["ppt", "media", "b.jpg"], "B"⟩])
        ⟨0, "BODY", ""⟩ "2024-01-01" ["o"] true ⟨[(["o"], Entry.dir)]⟩ =
      Except.error
        ((FS.extractAll ⟨[(["o"], Entry.dir)]⟩ (["o"] ++ ["temp_extract"])
            [⟨["ppt", "media", "a.png", "inner.gif"], "D"⟩,
              ⟨["ppt", "media", "b.jpg"], "B"⟩]).set ["o", "deck_images"] Entry.dir) ∧
    ((FS.extractAll ⟨[(["o"], Entry.dir)]⟩ (["o"] ++ ["temp_extract"])
        [⟨["ppt", "media", "a.png", "inner.gif"], "D"⟩,
          ⟨["ppt", "media", "b.jpg"], "B"⟩]).set ["o", "deck_images"] Entry.dir).lookup
      ["o", "deck_images", "b.jpg"] = none ∧
    ((FS.extractAll ⟨[(["o"], Entry.dir)]⟩ (["o"] ++ ["temp_extract"])
        [⟨["ppt", "media", "a.png", "inner.gif"], "D"⟩,
          ⟨["ppt", "media", "b.jpg"], "B"⟩]).set ["o", "deck_images"] Entry.dir).exists
      ["o", "temp_extract"] = true ∧
    ((FS.extractAll ⟨[(["o"], Entry.dir)]⟩ (["o"] ++ ["temp_extract"])
        [⟨["ppt", "media", "a.png", "inner.gif"], "D"⟩,
          ⟨["ppt", "media", "b.jpg"], "B"⟩]).set ["o", "deck_images"] Entry.dir).lookup
      ["o", "deck.md"] = none := by
  refine ⟨?_, ?_, ?_, ?_, ?_⟩
  · decide
  · rfl
  · decide
  · decide
  · decide

/-- C8 (amended): when the retain-images flag is set, assets were found,
and the invocation actually returns — the copy step raises no exception,
so every asset it reached was a regular file — the output-side folder
`output_dir / (stem + "_images")` is present afterwards and every
regular-file asset has been copied into it under its own filename, its
content overwriting whatever was previously at the destination (last write
wins, no renaming or deduplication).  When some asset is a directory the
real invocation instead aborts in `shutil.copy2` (counterexample above). -/
theorem keep_images_copies_assets_when_copy_completes (name : String) (zip : ZipOutcome)
    (conv : ConvResult) (date_stdout : String) (out : Path) (fs : FS) (res : ConvertResult)
    (hne : (extract_images_from_pptx zip out fs).images ≠ [])
    (hrun : convert_pptx_to_markdown_run name zip conv date_stdout out true fs =
      Except.ok res) :
    res.fs.exists (out ++ [pathStem name ++ "_images"]) = true ∧
    ∀ img ∈ (extract_images_from_pptx zip out fs).images, ∀ (c : String) (enc : Option String),
      (extract_images_from_pptx zip out fs).fs.lookup img = some (Entry.file c enc) →
      res.fs.lookup (out ++ [pathStem name ++ "_images", pathName img]) =
        some (Entry.file c enc) := by
  have hagree := convert_run_ok name zip conv date_stdout out true fs res hrun
  rw [← hagree]
  exact convert_total_keep_images name zip conv date_stdout out fs hne

/-- C8 (amended) witnessed on a concrete completing run: one regular-file
image `a.png`, flag set, converter succeeding; the faithful model returns,
`deck_images` exists afterwards and `deck_images/a.png` holds the image's
content. -/
theorem keep_images_copies_assets_when_copy_completes_witness :
    (convert_pptx_to_markdown "deck.pptx" (ZipOutcome.ok [⟨["ppt", "media", "a.png"], "A"⟩])
        ⟨0, "BODY", ""⟩ "2024-01-01" ["o"] true ⟨[(["o"], Entry.dir)]⟩).fs.exists
        (["o"] ++ [pathStem "deck.pptx" ++ "_images"]) = true ∧
    (convert_pptx_to_markdown "deck.pptx" (ZipOutcome.ok [⟨["ppt", "media", "a.png"], "A"⟩])
        ⟨0, "BODY", ""⟩ "2024-01-01" ["o"] true ⟨[(["o"], Entry.dir)]⟩).fs.lookup
        (["o"] ++ [pathStem "deck.pptx" ++ "_images",
          pathName ["o", "temp_extract", "ppt", "media", "a.png"]]) =
      some (Entry.file "A" none) :=
  ⟨(keep_images_copies_assets_when_copy_completes "deck.pptx"
      (ZipOutcome.ok [⟨["ppt", "media", "a.png"], "A"⟩]) ⟨0, "BODY", ""⟩ "2024-01-01" ["o"]
      ⟨[(["o"], Entry.dir)]⟩
      (convert_pptx_to_markdown "deck.pptx" (ZipOutcome.ok [⟨["ppt", "media", "a.png"], "A"⟩])
        ⟨0, "BODY", ""⟩ "2024-01-01" ["o"] true ⟨[(["o"], Entry.dir)]⟩)
      (by decide) (by rfl)).1,
    (keep_images_copies_assets_when_copy_completes "deck.pptx"
      (ZipOutcome.ok [⟨["ppt", "media", "a.png"], "A"⟩]) ⟨0, "BODY", ""⟩ "2024-01-01" ["o"]
      ⟨[(["o"], Entry.dir)]⟩
      (convert_pptx_to_markdown "deck.pptx" (ZipOutcome.ok [⟨["ppt", "media", "a.png"], "A"⟩])
        ⟨0, "BODY", ""⟩ "2024-01-01" ["o"] true ⟨[(["o"], Entry.dir)]⟩)
      (by decide) (by rfl)).2
      ["o", "temp_extract", "ppt", "media", "a.png"] (by decide) "A" none (by decide)⟩

end PptxToMarkdown
